import Mathlib

/-!
# Verification of the record-resolution and ETA-estimation core

This file is a shallow embedding, in Lean 4, of the algorithmic core of the
restaurant-leads pipeline:

* `app/tools/geocode_local.py` — address parsing/normalization, address and
  business-name similarity;
* `app/agents/agent_resolver.py` — deterministic match rules, ambiguity
  detection, seeded grouping, oracle-driven cross-group merging, record merge;
* `app/rules.py` — the deterministic ETA rule ladder, down-weighting,
  the lead-creation gate, milestone-date extraction;
* `app/agents/agent_eta.py` — signal extraction and the bounded LLM
  adjustment of rule results (single and batch).

Modelling conventions, used consistently below:

* Python strings are `List Char` (`Str`).  Case conversion (`str.lower`,
  `str.title`, …) is modelled on the ASCII range, which covers every string
  the pipeline manipulates; `None` and a missing key are modelled as the
  empty string wherever the source only tests truthiness.
* Python floats are modelled as exact rationals (`ℚ`).  Arithmetic is
  written with the kernel-computable wrappers `qadd`/`qsub`/`qmul`/`qdiv`
  (each proved equal to the corresponding field operation), so that
  concrete runs of the embedded code reduce inside `decide`.
* Python `datetime` values are modelled at two granularities.  The rule
  embeddings use plain day counts (ℤ): every datetime computation there
  shifts or compares whole days (`timedelta(days=…)`,
  `(a.date() - b.date()).days`).  Milestone-date extraction itself is in
  addition modelled with `PyDateTime`, a day count together with a
  timezone-awareness flag, because Python's `dt > latest_date` raises
  `TypeError` between an offset-naive and an offset-aware datetime — an
  exception the source catches, with an observable effect on the result.
* `datetime.fromisoformat` is external library code; it is modelled as an
  arbitrary parsing function (`parse : Str → Option ℤ`, or
  `Str → Option PyDateTime` for the refined model) threaded through the
  rules engine (`none` models the `ValueError`/`TypeError` of a failed
  parse, which the source catches).
* The two LLM oracles are external collaborators and enter as function
  parameters; an oracle exception or malformed reply is modelled by the
  failure value its call site degrades to.
* Each Python regex used by the source is hand-compiled to an explicit
  scanner over `List Char` with Python's leftmost / alternation-order /
  greedy semantics for that concrete pattern.
-/

set_option maxRecDepth 100000

open scoped List

abbrev Str := List Char

def lc (s : String) : Str := s.data

/-- ASCII model of `str.lower` on one character. -/
def asciiLower (c : Char) : Char :=
  if 65 ≤ c.toNat ∧ c.toNat ≤ 90 then Char.ofNat (c.toNat + 32) else c

/-- ASCII model of `str.upper` on one character. -/
def asciiUpper (c : Char) : Char :=
  if 97 ≤ c.toNat ∧ c.toNat ≤ 122 then Char.ofNat (c.toNat - 32) else c

/-- Model of `str.lower`. -/
def pyLower (xs : Str) : Str := xs.map asciiLower

/-- Whitespace characters recognised by Python's `str.strip` / regex `\s`
(ASCII range). -/
def pyIsSpace (c : Char) : Bool :=
  c == ' ' || c == '\t' || c == '\n' || c == '\r' ||
  c == Char.ofNat 11 || c == Char.ofNat 12

/-- Regex `\w` (word character), ASCII range. -/
def isWordChar (c : Char) : Bool := c.isAlpha || c.isDigit || c == '_'

/-- Model of `str.lstrip()`. -/
def pyLStrip (xs : Str) : Str := xs.dropWhile pyIsSpace

/-- Model of `str.rstrip()`. -/
def pyRStrip (xs : Str) : Str := (xs.reverse.dropWhile pyIsSpace).reverse

/-- Model of `str.strip()`. -/
def pyStrip (xs : Str) : Str := pyLStrip (pyRStrip xs)

/-- Python's substring test `needle in hay`. -/
def isSubstr (needle : Str) : Str → Bool
  | [] => needle.isEmpty
  | c :: t => needle.isPrefixOf (c :: t) || isSubstr needle t

/-- Model of `str.split()` (split on whitespace runs, dropping empties). -/
def pySplitWs (xs : Str) : List Str :=
  (xs.foldr
    (fun c acc =>
      if pyIsSpace c then [] :: acc
      else
        match acc with
        | [] => [[c]]
        | w :: ws => (c :: w) :: ws)
    []).filter (fun w => !w.isEmpty)

/-- Model of `str.split(sep)` for a one-character separator (keeps empties). -/
def pySplitChar (sep : Char) (xs : Str) : List Str :=
  xs.foldr
    (fun c acc =>
      if c == sep then [] :: acc
      else
        match acc with
        | [] => [[c]]
        | w :: ws => (c :: w) :: ws)
    [[]]

def replaceAllGo (old new : Str) : ℕ → Str → Str
  | 0, rest => rest
  | _ + 1, [] => []
  | fuel + 1, c :: t =>
    if old ≠ [] ∧ old.isPrefixOf (c :: t) then
      new ++ replaceAllGo old new fuel ((c :: t).drop old.length)
    else
      c :: replaceAllGo old new fuel t

/-- Model of `str.replace(old, new)` (all non-overlapping occurrences, left
to right).  The fuel `xs.length + 1` dominates the number of scan steps. -/
def replaceAll (old new xs : Str) : Str :=
  replaceAllGo old new (xs.length + 1) xs

def pyTitleGo : Bool → Str → Str
  | _, [] => []
  | prevCased, c :: t =>
    (if c.isAlpha then (if prevCased then asciiLower c else asciiUpper c) else c)
      :: pyTitleGo c.isAlpha t

/-- Model of `str.title()` (ASCII): a letter is upper-cased after a
non-letter and lower-cased after a letter. -/
def pyTitle (xs : Str) : Str := pyTitleGo false xs

/-- Python's `set(a) & set(b)` cardinality for token lists. -/
def setInterCard (a b : List Str) : ℕ :=
  (a.dedup.filter (fun x => b.contains x)).length

/-- Python's `set(a) | set(b)` cardinality for token lists. -/
def setUnionCard (a b : List Str) : ℕ := (a ++ b).dedup.length

/-- First value bound to a key in a Python dict modelled as an association
list (keys are unique by construction, in insertion order). -/
def dictGet? (m : List (Str × Str)) (k : Str) : Option Str :=
  (m.find? (fun p => p.1 = k)).map Prod.snd

/-- Model of `d[k] = v` on a Python dict: an existing key keeps its
position and gets the new value, a new key is appended. -/
def dictUpsert : List (Str × Str) → Str → Str → List (Str × Str)
  | [], k, v => [(k, v)]
  | (k0, v0) :: t, k, v =>
    if k0 = k then (k0, v) :: t else (k0, v0) :: dictUpsert t k v

/-- Kernel-computable product of rationals (proved equal to `a * b` in
`qmul_eq`; used so concrete runs reduce under `decide`). -/
def qmul (a b : ℚ) : ℚ := mkRat (a.num * b.num) (a.den * b.den)

/-- Kernel-computable sum of rationals (see `qadd_eq`). -/
def qadd (a b : ℚ) : ℚ :=
  mkRat (a.num * (b.den : ℤ) + b.num * (a.den : ℤ)) (a.den * b.den)

/-- Kernel-computable negation of a rational (see `qneg_eq`). -/
def qneg (a : ℚ) : ℚ := mkRat (-a.num) a.den

/-- Kernel-computable difference of rationals (see `qsub_eq`). -/
def qsub (a b : ℚ) : ℚ := qadd a (qneg b)

/-- Kernel-computable quotient of rationals, with Python's guarded uses
only ever dividing by a positive value (see `qdiv_eq`). -/
def qdiv (a b : ℚ) : ℚ := Rat.divInt (a.num * (b.den : ℤ)) ((a.den : ℤ) * b.num)

/-- Model of Python `abs` on a rational. -/
def qabs (a : ℚ) : ℚ := if a < 0 then qneg a else a

theorem qmul_eq (a b : ℚ) : qmul a b = a * b := by
  rw [qmul, Rat.mkRat_eq_divInt]
  conv_rhs => rw [← Rat.num_divInt_den a, ← Rat.num_divInt_den b]
  rw [Rat.divInt_mul_divInt']
  norm_cast

theorem qadd_eq (a b : ℚ) : qadd a b = a + b := by
  rw [qadd, Rat.mkRat_eq_divInt]
  conv_rhs => rw [← Rat.num_divInt_den a, ← Rat.num_divInt_den b]
  rw [Rat.divInt_add_divInt _ _
    (by exact_mod_cast a.den_nz) (by exact_mod_cast b.den_nz)]
  norm_cast

theorem qneg_eq (a : ℚ) : qneg a = -a := by
  rw [qneg, Rat.mkRat_eq_divInt, ← Rat.neg_divInt, Rat.num_divInt_den]

theorem qsub_eq (a b : ℚ) : qsub a b = a - b := by
  rw [qsub, qadd_eq, qneg_eq, sub_eq_add_neg]

theorem qdiv_eq (a b : ℚ) : qdiv a b = a / b := by
  rw [qdiv]
  conv_rhs => rw [← Rat.num_divInt_den a, ← Rat.num_divInt_den b]
  rw [Rat.divInt_div_divInt]

theorem qabs_eq (a : ℚ) : qabs a = |a| := by
  rw [qabs]
  split_ifs with h
  · rw [qneg_eq, abs_of_neg h]
  · rw [abs_of_nonneg (not_lt.mp h)]

/-! ## Embedding of `app/tools/geocode_local.py` -/

/-- Parsed address components (`AddressComponents` dataclass). -/
structure AddressComponents where
  street_number : Option Str := none
  street_name : Option Str := none
  suite : Option Str := none
  city : Option Str := none
  state : Option Str := none
  zip_code : Option Str := none
  normalized : Option Str := none
  deriving DecidableEq

/-- Truthiness of an optional string field (`None` and `""` are falsy). -/
def truthyOpt : Option Str → Bool
  | none => false
  | some s => !s.isEmpty

/-- City alias table of `LocalGeocoder.__init__`, in dict order. -/
def city_aliases : List (Str × List Str) :=
  [(lc "houston", [lc "houston", lc "htown", lc "space city"]),
   (lc "sugar land", [lc "sugar land", lc "sugarland"]),
   (lc "the woodlands", [lc "the woodlands", lc "woodlands"]),
   (lc "katy", [lc "katy"]),
   (lc "pearland", [lc "pearland"]),
   (lc "pasadena", [lc "pasadena"]),
   (lc "league city", [lc "league city"]),
   (lc "cypress", [lc "cypress"]),
   (lc "spring", [lc "spring"]),
   (lc "tomball", [lc "tomball"]),
   (lc "humble", [lc "humble"]),
   (lc "kingwood", [lc "kingwood"])]

/-- Street-type alias table of `LocalGeocoder.__init__`, in dict order. -/
def street_types : List (Str × List Str) :=
  [(lc "street", [lc "st", lc "str", lc "street"]),
   (lc "avenue", [lc "ave", lc "av", lc "avenue"]),
   (lc "boulevard", [lc "blvd", lc "boulevard", lc "bv"]),
   (lc "road", [lc "rd", lc "road"]),
   (lc "drive", [lc "dr", lc "drive"]),
   (lc "lane", [lc "ln", lc "lane"]),
   (lc "court", [lc "ct", lc "court"]),
   (lc "circle", [lc "cir", lc "circle"]),
   (lc "way", [lc "way"]),
   (lc "place", [lc "pl", lc "place"]),
   (lc "parkway", [lc "pkwy", lc "parkway"])]

/-- Word boundary to the right: the rest of the input starts with a
non-word character or is empty. -/
def boundaryAt : Str → Bool
  | [] => true
  | c :: _ => !isWordChar c

/-- Exactly `n` leading digits, returned with the remainder. -/
def takeDigits (n : ℕ) (xs : Str) : Option (Str × Str) :=
  let d := xs.take n
  if d.length = n ∧ d.all Char.isDigit then some (d, xs.drop n) else none

/-- Scanner for `re.search(r'\b(\d{5}(?:-\d{4})?)\b', address)`: leftmost
match, greedy 9-digit form tried before the 5-digit fallback.  `prev` is
the character before the current position (for the left word boundary). -/
def findZipGo (prev : Option Char) : Str → Option Str
  | [] => none
  | c :: t =>
    (if (match prev with | none => true | some p => !isWordChar p) then
      match takeDigits 5 (c :: t) with
      | some (d5, rest5) =>
        (match rest5 with
         | '-' :: r =>
           match takeDigits 4 r with
           | some (d4, rest9) =>
             if boundaryAt rest9 then some (d5 ++ '-' :: d4)
             else if boundaryAt rest5 then some d5 else none
           | none => if boundaryAt rest5 then some d5 else none
         | _ => if boundaryAt rest5 then some d5 else none)
      | none => none
     else none) <|> findZipGo (some c) t

/-- Scanner for `re.search(r'\b(tx|texas)\b', address)` (alternation order
`tx` before `texas`; both sides word-bounded). -/
def findStateGo (prev : Option Char) : Str → Option Str
  | [] => none
  | c :: t =>
    (if (match prev with | none => true | some p => !isWordChar p) then
      if (lc "tx").isPrefixOf (c :: t) && boundaryAt ((c :: t).drop 2) then
        some (lc "tx")
      else if (lc "texas").isPrefixOf (c :: t) && boundaryAt ((c :: t).drop 5) then
        some (lc "texas")
      else none
     else none) <|> findStateGo (some c) t

/-- Character class `[a-z0-9\-]` of the suite patterns. -/
def isSuiteTokChar (c : Char) : Bool :=
  (97 ≤ c.toNat && c.toNat ≤ 122) || c.isDigit || c == '-'

/-- Alternation `(suite|ste|unit|apt|apartment|#)` in source order. -/
def suiteAlts : List Str :=
  [lc "suite", lc "ste", lc "unit", lc "apt", lc "apartment", lc "#"]

/-- Match of `(suite|ste|unit|apt|apartment|#)\s*([a-z0-9\-]+)` anchored at
the current position; returns (whole match, group 2). -/
def suiteMatchAt (rest : Str) : Option (Str × Str) :=
  suiteAlts.findSome? (fun alt =>
    if alt.isPrefixOf rest then
      let after := rest.drop alt.length
      let sp := after.takeWhile pyIsSpace
      let tok := (after.drop sp.length).takeWhile isSuiteTokChar
      if tok ≠ [] then some (alt ++ sp ++ tok, tok) else none
    else none)

/-- Scanner for `re.search` of the first suite pattern of `parse_address`. -/
def findSuiteGo : Str → Option (Str × Str)
  | [] => none
  | c :: t => suiteMatchAt (c :: t) <|> findSuiteGo t

/-- Scanner for `re.search(r'#\s*([a-z0-9\-]+)', address)` (second suite
pattern); returns (whole match, group 1). -/
def findHashGo : Str → Option (Str × Str)
  | [] => none
  | c :: t =>
    (if c == '#' then
      let sp := t.takeWhile pyIsSpace
      let tok := (t.drop sp.length).takeWhile isSuiteTokChar
      if tok ≠ [] then some ('#' :: (sp ++ tok), tok) else none
     else none) <|> findHashGo t

/-- Match of `re.match(r'^(\d+[a-z]?)\s+(.+)', street_part)`: greedy digit
run, optional single `[a-z]`, mandatory whitespace, non-empty remainder
(with the regex engine's backtracking of `\s+` against `(.+)`). -/
def matchStreetNumber (xs : Str) : Option (Str × Str) :=
  let digits := xs.takeWhile Char.isDigit
  if digits = [] then none
  else
    let rest1 := xs.drop digits.length
    let withLetter : Option (Str × Str) :=
      match rest1 with
      | c :: r2 =>
        if 97 ≤ c.toNat ∧ c.toNat ≤ 122 then
          let sp := r2.takeWhile pyIsSpace
          let rem := r2.drop sp.length
          if sp ≠ [] ∧ rem ≠ [] then some (digits ++ [c], rem)
          else if sp.length ≥ 2 ∧ rem = [] then
            some (digits ++ [c], [(sp.getLast?).getD ' '])
          else none
        else none
      | [] => none
    match withLetter with
    | some r => some r
    | none =>
      let sp := rest1.takeWhile pyIsSpace
      let rem := rest1.drop sp.length
      if sp ≠ [] ∧ rem ≠ [] then some (digits, rem)
      else if sp.length ≥ 2 ∧ rem = [] then
        some (digits, [(sp.getLast?).getD ' '])
      else none

/-- Model of `LocalGeocoder._normalize_street_name`. -/
def normalize_street_name (street_name : Str) : Str :=
  if street_name = [] then street_name
  else
    let words := pySplitWs street_name
    let words' :=
      match words.getLast? with
      | none => words
      | some lastWord =>
        match street_types.find? (fun st => st.2.contains (pyLower lastWord)) with
        | some st => words.dropLast ++ [pyTitle st.1]
        | none => words
    pyTitle (List.intercalate (lc " ") words')

/-- Model of `LocalGeocoder._normalize_city_name`. -/
def normalize_city_name (city_name : Str) : Str :=
  if city_name = [] then city_name
  else
    let city_lower := pyStrip (pyLower city_name)
    match city_aliases.find? (fun ca => ca.2.contains city_lower) with
    | some ca => pyTitle ca.1
    | none => pyTitle city_name

/-- Model of `LocalGeocoder.parse_address`. -/
def parse_address (address_text : Str) : AddressComponents :=
  if address_text = [] then {}
  else
    let address0 := pyLower (pyStrip address_text)
    let zipM := findZipGo none address0
    let address1 :=
      match zipM with
      | some z => pyStrip (replaceAll z [] address0)
      | none => address0
    let stateM := findStateGo none address1
    let state : Option Str := if stateM.isSome then some (lc "TX") else none
    let address2 :=
      match stateM with
      | some m => pyStrip (replaceAll m [] address1)
      | none => address1
    let suitePair :=
      match findSuiteGo address2 with
      | some p => some p
      | none => findHashGo address2
    let suite : Option Str := suitePair.map Prod.snd
    let address3 :=
      match suitePair with
      | some p => pyStrip (replaceAll p.1 [] address2)
      | none => address2
    let parts := ((pySplitChar ',' address3).map pyStrip).filter (fun p => p ≠ [])
    match parts with
    | [] => { zip_code := zipM, state := state, suite := suite }
    | street_part :: moreParts =>
      let numSplit := matchStreetNumber street_part
      let street_number : Option Str := numSplit.map Prod.fst
      let street_name0 :=
        match numSplit with
        | some p => p.2
        | none => street_part
      let street_name := normalize_street_name street_name0
      let city : Option Str :=
        match moreParts with
        | [] => none
        | city_part :: _ => some (normalize_city_name (pyStrip city_part))
      let normalized_parts :=
        (match street_number with | some n => [n] | none => []) ++
        (if street_name ≠ [] then [street_name] else [])
      let normalized_street : Option Str :=
        if normalized_parts ≠ [] then some (List.intercalate (lc " ") normalized_parts)
        else none
      let full_normalized_parts :=
        (match normalized_street with | some s => if s ≠ [] then [s] else [] | none => []) ++
        (match city with | some s => if s ≠ [] then [s] else [] | none => []) ++
        (match state with | some s => if s ≠ [] then [s] else [] | none => []) ++
        (match zipM with | some s => if s ≠ [] then [s] else [] | none => [])
      let normalized_address :=
        if full_normalized_parts ≠ [] then List.intercalate (lc ", ") full_normalized_parts
        else address_text
      { street_number := street_number
        street_name := some street_name
        suite := suite
        city := city
        state := some (match state with | some s => s | none => lc "TX")
        zip_code := zipM
        normalized := some normalized_address }

/-- Model of `LocalGeocoder._string_similarity`. -/
def string_similarity (s1 s2 : Str) : ℚ :=
  if s1 = [] ∨ s2 = [] then mkRat 0 1
  else if s1 = s2 then mkRat 1 1
  else
    let tokens1 := pySplitWs s1
    let tokens2 := pySplitWs s2
    if tokens1 = [] ∨ tokens2 = [] then mkRat 0 1
    else
      let inter := setInterCard tokens1 tokens2
      let union := setUnionCard tokens1 tokens2
      if union > 0 then qdiv (mkRat (inter : ℤ) 1) (mkRat (union : ℤ) 1)
      else mkRat 0 1

/-- Model of `LocalGeocoder.calculate_address_similarity`. -/
def calculate_address_similarity (address1 address2 : Str) : ℚ :=
  if address1 = [] ∨ address2 = [] then mkRat 0 1
  else
    let addr1 := parse_address address1
    let addr2 := parse_address address2
    let sw : ℚ × ℚ := (mkRat 0 1, mkRat 0 1)
    let sw :=
      if truthyOpt addr1.street_number ∧ truthyOpt addr2.street_number then
        (if pyLower ((addr1.street_number).getD []) = pyLower ((addr2.street_number).getD [])
         then qadd sw.1 (mkRat 2 5) else sw.1,
         qadd sw.2 (mkRat 2 5))
      else if truthyOpt addr1.street_number ∨ truthyOpt addr2.street_number then
        (sw.1, qadd sw.2 (mkRat 2 5))
      else sw
    let sw :=
      if truthyOpt addr1.street_name ∧ truthyOpt addr2.street_name then
        (qadd sw.1 (qmul (mkRat 3 10)
          (string_similarity (pyLower ((addr1.street_name).getD []))
            (pyLower ((addr2.street_name).getD [])))),
         qadd sw.2 (mkRat 3 10))
      else if truthyOpt addr1.street_name ∨ truthyOpt addr2.street_name then
        (sw.1, qadd sw.2 (mkRat 3 10))
      else sw
    let sw :=
      if truthyOpt addr1.city ∧ truthyOpt addr2.city then
        (if pyLower ((addr1.city).getD []) = pyLower ((addr2.city).getD [])
         then qadd sw.1 (mkRat 1 5) else sw.1,
         qadd sw.2 (mkRat 1 5))
      else if truthyOpt addr1.city ∨ truthyOpt addr2.city then
        (sw.1, qadd sw.2 (mkRat 1 5))
      else sw
    let sw :=
      if truthyOpt addr1.zip_code ∧ truthyOpt addr2.zip_code then
        (if (addr1.zip_code).getD [] = (addr2.zip_code).getD []
         then qadd sw.1 (mkRat 1 10) else sw.1,
         qadd sw.2 (mkRat 1 10))
      else if truthyOpt addr1.zip_code ∨ truthyOpt addr2.zip_code then
        (sw.1, qadd sw.2 (mkRat 1 10))
      else sw
    if sw.2 > mkRat 0 1 then qdiv sw.1 sw.2 else mkRat 0 1

/-- Business-suffix list of `normalize_business_name`, in source order. -/
def business_suffixes : List Str :=
  [lc "llc", lc "inc", lc "corp", lc "ltd", lc "co", lc "company",
   lc "corporation", lc "incorporated", lc "limited", lc "restaurant",
   lc "cafe", lc "bar", lc "grill"]

/-- The rest of the input equals `tail` and the character before it is a
word boundary (start of string or a non-word character). -/
def endsWithTok (core tok : Str) : Bool :=
  if core.length < tok.length then false
  else
    let pre := core.take (core.length - tok.length)
    (core.drop (core.length - tok.length) == tok) &&
      (match pre.getLast? with
       | none => true
       | some c => !isWordChar c)

/-- Model of one iteration `name = re.sub(rf'\b{suffix}\.?\s*$', '',
name).strip()` of the suffix loop in `normalize_business_name`.  The
`$`-anchored pattern can match at most once: the word-bounded suffix at
the end of the string, optionally followed by a dot and by trailing
whitespace. -/
def stripOneSuffix (suffix name : Str) : Str :=
  let core := pyRStrip name
  if endsWithTok core (suffix ++ ['.']) then
    pyStrip (core.take (core.length - (suffix.length + 1)))
  else if endsWithTok core suffix then
    pyStrip (core.take (core.length - suffix.length))
  else pyStrip name

/-- Single pass of the suffix loop of `normalize_business_name`, over the
fixed list in source order. -/
def stripBusinessSuffixes (name : Str) : Str :=
  business_suffixes.foldl (fun nm suf => stripOneSuffix suf nm) name

/-- Model of `normalize_business_name`. -/
def normalize_business_name (business_name : Str) : Str :=
  if business_name = [] then business_name
  else
    let name0 := pyStrip (pyLower business_name)
    let name1 := stripBusinessSuffixes name0
    let name2 := name1.map (fun c => if isWordChar c || pyIsSpace c then c else ' ')
    List.intercalate (lc " ") (pySplitWs name2)

/-- Model of `calculate_business_name_similarity`. -/
def calculate_business_name_similarity (name1 name2 : Str) : ℚ :=
  if name1 = [] ∨ name2 = [] then mkRat 0 1
  else
    let norm1 := normalize_business_name name1
    let norm2 := normalize_business_name name2
    if norm1 = norm2 then mkRat 1 1
    else
      let tokens1 := pySplitWs norm1
      let tokens2 := pySplitWs norm2
      if tokens1 = [] ∨ tokens2 = [] then mkRat 0 1
      else
        let inter := setInterCard tokens1 tokens2
        let union := setUnionCard tokens1 tokens2
        let jaccard :=
          if union > 0 then qdiv (mkRat (inter : ℤ) 1) (mkRat (union : ℤ) 1)
          else mkRat 0 1
        if isSubstr norm1 norm2 || isSubstr norm2 norm1 then
          min (mkRat 1 1) (qadd jaccard (mkRat 1 5))
        else jaccard

/-! ## Embedding of `app/agents/agent_resolver.py` -/

/-- Nested `signals` map of a raw record (data-model shape consumed by
`_extract_signals_data`). -/
structure SignalsBag where
  tabc_status : Option Str := none
  tabc_dates : List (Str × Str) := []
  health_status : Option Str := none
  permit_types : List Str := []
  milestone_dates : List (Str × Str) := []
  deriving DecidableEq, Inhabited

/-- Raw multi-source record (dict shape consumed by the resolver and the
ETA agent).  A missing or `None` string field is the empty string — the
source only ever tests truthiness or takes lengths, for which the two
coincide. -/
structure RawRecord where
  candidate_id : ℕ := 0
  venue_name : Str := []
  legal_name : Str := []
  address : Str := []
  phone : Str := []
  email : Str := []
  source_flags : List (Str × Str) := []
  signals : SignalsBag := {}
  deriving DecidableEq, Inhabited

/-- Resolver output: a raw-record-shaped dict, plus the `_merged_from` /
`_source_records` keys that `_merge_group_records` attaches (absent on
single-record pass-throughs). -/
structure ResolvedEntity where
  record : RawRecord
  merged_from : Option ℕ := none
  source_record_ids : Option (List ℕ) := none
  deriving DecidableEq, Inhabited

/-- Case-insensitive prefix test (regex `IGNORECASE`; the needle is given
lower-cased). -/
def ciIsPrefixOf (needle xs : Str) : Bool :=
  needle.isPrefixOf (pyLower (xs.take needle.length))

/-- Character class `[a-z0-9\-]` under `IGNORECASE`. -/
def isSuiteTokCharCI (c : Char) : Bool := isSuiteTokChar (asciiLower c)

/-- Match length, at the current position, of
`r'\s+(suite|ste|unit|apt|apartment|#)\s+[a-z0-9\-]+'` (IGNORECASE). -/
def baseAddrMatchA (rest : Str) : Option ℕ :=
  let sp1 := rest.takeWhile pyIsSpace
  if sp1 = [] then none
  else
    let rest2 := rest.drop sp1.length
    suiteAlts.findSome? (fun alt =>
      if ciIsPrefixOf alt rest2 then
        let rest3 := rest2.drop alt.length
        let sp2 := rest3.takeWhile pyIsSpace
        if sp2 = [] then none
        else
          let tok := (rest3.drop sp2.length).takeWhile isSuiteTokCharCI
          if tok = [] then none
          else some (sp1.length + alt.length + sp2.length + tok.length)
      else none)

/-- Match length of `r'\s+#\s*[a-z0-9\-]+'` (IGNORECASE). -/
def baseAddrMatchB (rest : Str) : Option ℕ :=
  let sp1 := rest.takeWhile pyIsSpace
  if sp1 = [] then none
  else
    match rest.drop sp1.length with
    | '#' :: r2 =>
      let sp2 := r2.takeWhile pyIsSpace
      let tok := (r2.drop sp2.length).takeWhile isSuiteTokCharCI
      if tok = [] then none
      else some (sp1.length + 1 + sp2.length + tok.length)
    | _ => none

/-- Match length of `r',\s+(suite|ste|unit|apt|apartment)\s+[a-z0-9\-]+'`
(IGNORECASE). -/
def baseAddrMatchC (rest : Str) : Option ℕ :=
  match rest with
  | ',' :: r1 =>
    let sp1 := r1.takeWhile pyIsSpace
    if sp1 = [] then none
    else
      let rest2 := r1.drop sp1.length
      (suiteAlts.take 5).findSome? (fun alt =>
        if ciIsPrefixOf alt rest2 then
          let rest3 := rest2.drop alt.length
          let sp2 := rest3.takeWhile pyIsSpace
          if sp2 = [] then none
          else
            let tok := (rest3.drop sp2.length).takeWhile isSuiteTokCharCI
            if tok = [] then none
            else some (1 + sp1.length + alt.length + sp2.length + tok.length)
        else none)
  | _ => none

def subAllGo (matchAt : Str → Option ℕ) : ℕ → Str → Str
  | 0, rest => rest
  | _ + 1, [] => []
  | fuel + 1, c :: t =>
    match matchAt (c :: t) with
    | some n =>
      if n = 0 then c :: subAllGo matchAt fuel t
      else subAllGo matchAt fuel ((c :: t).drop n)
    | none => c :: subAllGo matchAt fuel t

/-- Model of `re.sub(pattern, '', s)`: delete every non-overlapping match,
scanning left to right. -/
def subAll (matchAt : Str → Option ℕ) (xs : Str) : Str :=
  subAllGo matchAt (xs.length + 1) xs

/-- Model of `ResolverAgent._extract_base_address`. -/
def extract_base_address (address : Str) : Str :=
  if address = [] then []
  else
    pyStrip (subAll baseAddrMatchC (subAll baseAddrMatchB (subAll baseAddrMatchA address)))

/-- Model of `ResolverAgent._is_deterministic_match`. -/
def is_deterministic_match (record1 record2 : RawRecord) : Bool :=
  let addr1 := pyStrip (pyLower record1.address)
  let addr2 := pyStrip (pyLower record2.address)
  if addr1 ≠ [] ∧ addr2 ≠ [] ∧ addr1 = addr2 then true
  else
    let digits1 := record1.phone.filter Char.isDigit
    let digits2 := record2.phone.filter Char.isDigit
    if record1.phone ≠ [] ∧ record2.phone ≠ [] ∧ digits1.length ≥ 10 ∧
        digits2.length ≥ 10 ∧
        digits1.drop (digits1.length - 10) = digits2.drop (digits2.length - 10) then
      true
    else if record1.email ≠ [] ∧ record2.email ≠ [] ∧
        pyLower record1.email = pyLower record2.email then
      true
    else
      let addr_similarity := calculate_address_similarity record1.address record2.address
      let name_similarity :=
        calculate_business_name_similarity record1.venue_name record2.venue_name
      if addr_similarity > mkRat 9 10 ∧ name_similarity > mkRat 4 5 then true
      else if name_similarity > mkRat 19 20 ∧ addr_similarity > mkRat 7 10 then
        let addr1_base := extract_base_address record1.address
        let addr2_base := extract_base_address record2.address
        addr1_base ≠ [] ∧ addr2_base ≠ [] ∧ pyLower addr1_base = pyLower addr2_base
      else false

/-- Model of `ResolverAgent._is_ambiguous_pair`. -/
def is_ambiguous_pair (record1 record2 : RawRecord) : Bool :=
  let addr_sim := calculate_address_similarity record1.address record2.address
  let name_sim := calculate_business_name_similarity record1.venue_name record2.venue_name
  if mkRat 2 5 < addr_sim ∧ addr_sim < mkRat 9 10 ∧ name_sim > mkRat 3 10 then true
  else if mkRat 3 10 < name_sim ∧ name_sim < mkRat 4 5 ∧ addr_sim > mkRat 2 5 then true
  else
    let counts :=
      [lc "tabc", lc "hc_permit", lc "hc_health"].foldl
        (fun (ct : ℕ × ℕ) k =>
          match dictGet? record1.source_flags k, dictGet? record2.source_flags k with
          | some v1, some v2 =>
            if v1 ≠ [] ∧ v2 ≠ [] then
              (ct.1 + (if v1 = v2 then 1 else 0), ct.2 + 1)
            else ct
          | _, _ => ct)
        (0, 0)
    0 < counts.2 ∧
      qdiv (mkRat (counts.1 : ℤ) 1) (mkRat (counts.2 : ℤ) 1) > mkRat 1 2

def apply_deterministic_rules_go {ρ : Type} (matchFn : ρ → ρ → Bool) :
    ℕ → List ρ → List (List ρ)
  | 0, _ => []
  | _ + 1, [] => []
  | fuel + 1, candidate :: unmatched =>
    let group := candidate :: unmatched.filter (fun o => matchFn candidate o)
    let remaining := unmatched.filter (fun o => !matchFn candidate o)
    group :: apply_deterministic_rules_go matchFn fuel remaining

/-- Model of `ResolverAgent._apply_deterministic_rules` (pass 1): pop a
seed, move every remaining record the classifier matches against the seed
into the seed's group, repeat on the rest.  The fuel bounds the number of
`while unmatched` iterations (each pops at least one record, so the input
length suffices). -/
def apply_deterministic_rules {ρ : Type} (matchFn : ρ → ρ → Bool)
    (candidates : List ρ) : List (List ρ) :=
  apply_deterministic_rules_go matchFn candidates.length candidates

/-- First ambiguous record pair between two groups, in the nested-loop
order of `_find_ambiguous_pairs` (the `for … else … break` construct stops
at the first hit). -/
def first_ambiguous_pair {ρ : Type} (ambFn : ρ → ρ → Bool)
    (group1 group2 : List ρ) : Option (ρ × ρ) :=
  group1.findSome? (fun r1 => (group2.find? (fun r2 => ambFn r1 r2)).map (fun r2 => (r1, r2)))

/-- Model of `ResolverAgent._find_ambiguous_pairs`: for every group pair
`i < j`, at most one `(i, j, record1, record2)` entry. -/
def find_ambiguous_pairs {ρ : Type} (ambFn : ρ → ρ → Bool)
    (groups : List (List ρ)) : List (ℕ × ℕ × ρ × ρ) :=
  (List.range groups.length).flatMap (fun i =>
    (List.range' (i + 1) (groups.length - (i + 1))).filterMap (fun j =>
      (first_ambiguous_pair ambFn (groups.getD i []) (groups.getD j [])).map
        (fun p => (i, j, p.1, p.2))))

/-- Model of `ResolverAgent._apply_llm_matching` (pass 2).  The ambiguous
pairs are computed once, on the incoming groups; for each pair whose
records the oracle merges (`same_entity and confidence_0_1 > 0.7`; an
oracle exception is a non-merge, via the `except: continue`), group `j`'s
current records are appended to group `i` and slot `j` is emptied.  Empty
groups are dropped at the end. -/
def apply_llm_matching {ρ : Type} (ambFn oracle : ρ → ρ → Bool)
    (groups : List (List ρ)) : List (List ρ) :=
  let pairs := find_ambiguous_pairs ambFn groups
  let final := pairs.foldl
    (fun gs p =>
      if oracle p.2.2.1 p.2.2.2 then
        (gs.set p.1 (gs.getD p.1 [] ++ gs.getD p.2.1 [])).set p.2.1 []
      else gs)
    groups
  final.filter (fun g => !g.isEmpty)

/-- Per-member field merge of `_merge_group_records`: longest venue name
and address win, `legal_name`/`phone`/`email` only fill gaps. -/
def merge_field_step (m r : RawRecord) : RawRecord :=
  let m := if r.venue_name.length > m.venue_name.length
    then { m with venue_name := r.venue_name } else m
  let m := if m.legal_name = [] ∧ r.legal_name ≠ []
    then { m with legal_name := r.legal_name } else m
  let m := if m.phone = [] ∧ r.phone ≠ []
    then { m with phone := r.phone } else m
  let m := if m.email = [] ∧ r.email ≠ []
    then { m with email := r.email } else m
  if r.address.length > m.address.length
    then { m with address := r.address } else m

/-- Model of `ResolverAgent._merge_group_records` (only ever called on a
group of at least two records). -/
def merge_group_records (records : List RawRecord) : ResolvedEntity :=
  match records with
  | [] => ⟨{}, some 0, some []⟩
  | base :: others =>
    let all_source_flags :=
      records.foldl
        (fun m r =>
          r.source_flags.foldl
            (fun m kv => if kv.2 ≠ [] then dictUpsert m kv.1 kv.2 else m)
            m)
        []
    let merged0 : RawRecord := { base with source_flags := all_source_flags }
    let merged := others.foldl merge_field_step merged0
    ⟨merged, some records.length, some (records.map (fun r => r.candidate_id))⟩

/-- Model of `ResolverAgent._merge_resolved_groups` (pass 3). -/
def merge_resolved_groups (groups : List (List RawRecord)) : List ResolvedEntity :=
  groups.filterMap (fun group =>
    match group with
    | [] => none
    | [r] => some ⟨r, none, none⟩
    | _ => some (merge_group_records group))

/-- Model of `ResolverAgent.resolve_entities`, with the match oracle as a
parameter (it is an external LLM call; `oracle r1 r2` is the value of
`same_entity and confidence_0_1 > 0.7` for that reply, and a raised or
malformed reply is `false` by the source's fallbacks). -/
def resolve_entities (oracle : RawRecord → RawRecord → Bool)
    (candidates : List RawRecord) : List ResolvedEntity :=
  merge_resolved_groups
    (apply_llm_matching is_ambiguous_pair oracle
      (apply_deterministic_rules is_deterministic_match candidates))

/-- Contribution of one resolved entity to the partition count: its
`merged_from`, or 1 for a singleton pass-through. -/
def entityWeight (e : ResolvedEntity) : ℕ := e.merged_from.getD 1

/-- Source-record identifiers covered by one resolved entity: the attached
`_source_records`, or the record's own id for a singleton pass-through. -/
def entitySourceIds (e : ResolvedEntity) : List ℕ :=
  e.source_record_ids.getD [e.record.candidate_id]

/-! ## Embedding of `app/rules.py` -/

/-- Signals dict in the shape `_extract_signals_data` hands to the rules
engine (`health_status` there is always a string). -/
structure Signals where
  tabc_status : Option Str := none
  tabc_dates : List (Str × Str) := []
  health_status : Str := []
  permit_types : List Str := []
  milestone_dates : List (Str × Str) := []
  deriving DecidableEq, Inhabited

/-- Result dataclass `ETARuleResult`.  Datetimes are day counts (ℤ). -/
structure ETARuleResult where
  eta_start : ℤ
  eta_end : ℤ
  eta_days : ℤ
  confidence_0_1 : ℚ
  rule_name : Str
  signals_used : List Str
  rationale_text : Str := []
  deriving DecidableEq, Inhabited

/-- Day-count model of `ETARulesEngine._get_latest_milestone_date`, used by
the rule embeddings below.  `parse` stands for `datetime.fromisoformat`
(applied after the `'Z' → '+00:00'` replacement); a `none` is a failed
parse, which the source catches with `continue`.  All parsed values are
compared in the total order on ℤ; the refined model
`get_latest_milestone_date_dt` below also tracks each parsed value's
timezone-awareness, under which the comparison itself can raise. -/
def get_latest_milestone_date (parse : Str → Option ℤ)
    (dates : List (Str × Str)) (keywords : List Str) : Option ℤ :=
  dates.foldl
    (fun latest kv =>
      if keywords.any (fun kw => isSubstr kw (pyLower kv.1)) then
        match parse (replaceAll (lc "Z") (lc "+00:00") kv.2) with
        | some dt =>
          match latest with
          | none => some dt
          | some l => if dt > l then some dt else some l
        | none => latest
      else latest)
    none

/-- A parsed `datetime.fromisoformat` value: its timeline position as a day
count, together with whether the parsed datetime carries a UTC offset
(offset-aware) or not (offset-naive). -/
structure PyDateTime where
  ts : ℤ
  aware : Bool
  deriving DecidableEq, Inhabited

/-- Python's `a > b` on two datetimes: an ordinary comparison inside one
awareness class, but a `TypeError` (modelled as `none`) between an
offset-naive and an offset-aware datetime. -/
def pyDtGt (a b : PyDateTime) : Option Bool :=
  if a.aware = b.aware then some (decide (b.ts < a.ts)) else none

/-- The body of `_get_latest_milestone_date`'s `try` block after a
successful parse: `if latest_date is None or dt > latest_date:
latest_date = dt`.  When `latest` is `None` no comparison runs; otherwise
a `TypeError` from the comparison is caught by the `except`, which keeps
the current `latest` (the parsed `dt` is dropped). -/
def glmdStepDt (latest : Option PyDateTime) (dt : PyDateTime) : Option PyDateTime :=
  match latest with
  | none => some dt
  | some l =>
    match pyDtGt dt l with
    | some true => some dt
    | some false => some l
    | none => some l

/-- One loop iteration of `_get_latest_milestone_date` in the refined
model: keyword filter, `fromisoformat` after the `'Z' → '+00:00'`
replacement (a failed parse is caught: `continue`), then `glmdStepDt`. -/
def glmdEntryStep (parse : Str → Option PyDateTime) (keywords : List Str)
    (latest : Option PyDateTime) (kv : Str × Str) : Option PyDateTime :=
  if keywords.any (fun kw => isSubstr kw (pyLower kv.1)) then
    match parse (replaceAll (lc "Z") (lc "+00:00") kv.2) with
    | some dt => glmdStepDt latest dt
    | none => latest
  else latest

/-- Refined model of `ETARulesEngine._get_latest_milestone_date`: parsed
values carry their timezone-awareness and the `dt > latest_date`
comparison faithfully raises (and is caught) between awareness classes. -/
def get_latest_milestone_date_dt (parse : Str → Option PyDateTime)
    (dates : List (Str × Str)) (keywords : List Str) : Option PyDateTime :=
  dates.foldl (glmdEntryStep parse keywords) none

/-- Dates that `_get_latest_milestone_date` can actually use: values under
a keyword-matching key that parse successfully. -/
def milestone_matching_values_dt (parse : Str → Option PyDateTime)
    (dates : List (Str × Str)) (keywords : List Str) : List PyDateTime :=
  (dates.filter (fun kv => keywords.any (fun kw => isSubstr kw (pyLower kv.1)))).filterMap
    (fun kv => parse (replaceAll (lc "Z") (lc "+00:00") kv.2))

/-- Model of `ETARulesEngine._rule_high_probability_ship`. -/
def rule_high_probability_ship (parse : Str → Option ℤ) (today : ℤ)
    (signals : Signals) : Option ETARuleResult :=
  let tabc_status := pyLower ((signals.tabc_status).getD [])
  if ¬ (isSubstr (lc "original") tabc_status ∧ isSubstr (lc "pending") tabc_status) then none
  else if ¬ isSubstr (lc "approved") (pyLower signals.health_status) then none
  else
    match get_latest_milestone_date parse signals.milestone_dates
        [lc "plan", lc "approved"] with
    | some plan_approved_date =>
      if today - plan_approved_date ≤ 45 then
        some { eta_start := today + 30, eta_end := today + 60, eta_days := 45
               confidence_0_1 := mkRat 3 4
               rule_name := lc "high_probability_ship"
               signals_used := [lc "tabc_original_pending", lc "hcph_plan_approved"] }
      else none
    | none => none

/-- Model of `ETARulesEngine._rule_strong_early_signal`. -/
def rule_strong_early_signal (parse : Str → Option ℤ) (today : ℤ)
    (signals : Signals) : Option ETARuleResult :=
  let tabc_status := pyLower ((signals.tabc_status).getD [])
  let has_early_permit := signals.permit_types.any (fun p =>
    isSubstr (lc "tenant build-out") (pyLower p) || isSubstr (lc "new construction") (pyLower p))
  if has_early_permit ∧ isSubstr (lc "pending") tabc_status then
    match get_latest_milestone_date parse signals.milestone_dates
        [lc "application", lc "filed"] with
    | some application_date =>
      if today - application_date ≤ 60 then
        some { eta_start := today + 60, eta_end := today + 120, eta_days := 90
               confidence_0_1 := mkRat 7 10
               rule_name := lc "strong_early_signal"
               signals_used := [lc "early_permit", lc "tabc_pending_recent"] }
      else none
    | none => none
  else none

/-- Indicator list of `_rule_final_inspection_scheduled`. -/
def final_inspection_indicators : List Str :=
  [lc "final inspection", lc "co pending", lc "co scheduled",
   lc "certificate of occupancy", lc "final review"]

/-- Model of `ETARulesEngine._rule_final_inspection_scheduled`. -/
def rule_final_inspection_scheduled (today : ℤ)
    (signals : Signals) : Option ETARuleResult :=
  let found_indicator :=
    signals.permit_types.any (fun p =>
      final_inspection_indicators.any (fun ind => isSubstr ind (pyLower p))) ||
    signals.milestone_dates.any (fun kv =>
      final_inspection_indicators.any (fun ind => isSubstr ind (pyLower kv.1)))
  if found_indicator then
    some { eta_start := today + 7, eta_end := today + 30, eta_days := 18
           confidence_0_1 := mkRat 4 5
           rule_name := lc "final_inspection_scheduled"
           signals_used := [lc "final_inspection_or_co"] }
  else none

/-- Model of `ETARulesEngine._rule_medium_tabc_pending` (tiered). -/
def rule_medium_tabc_pending (parse : Str → Option ℤ) (today : ℤ)
    (signals : Signals) : Option ETARuleResult :=
  let tabc_status := pyLower ((signals.tabc_status).getD [])
  if ¬ (isSubstr (lc "original") tabc_status ∧ isSubstr (lc "pending") tabc_status) then none
  else
    match get_latest_milestone_date parse signals.tabc_dates
        [lc "application", lc "filed"] with
    | some application_date =>
      let days_since_application := today - application_date
      if days_since_application ≤ 30 then
        some { eta_start := today + 45, eta_end := today + 90, eta_days := 67
               confidence_0_1 := mkRat 13 20
               rule_name := lc "medium_tabc_pending_new"
               signals_used := [lc "tabc_original_pending_new"] }
      else if days_since_application ≤ 75 then
        some { eta_start := today + 30, eta_end := today + 60, eta_days := 45
               confidence_0_1 := mkRat 3 5
               rule_name := lc "medium_tabc_pending_aged"
               signals_used := [lc "tabc_original_pending_aged"] }
      else none
    | none => none

/-- Model of `ETARulesEngine._rule_medium_plan_review_building`. -/
def rule_medium_plan_review_building (parse : Str → Option ℤ) (today : ℤ)
    (signals : Signals) : Option ETARuleResult :=
  let health_status := pyLower signals.health_status
  if ¬ (isSubstr (lc "plan") health_status ∧ isSubstr (lc "review") health_status) then none
  else
    let building_permit_date := get_latest_milestone_date parse signals.milestone_dates
      [lc "building", lc "tenant"]
    let has_building_permit := signals.permit_types.any (fun p =>
      isSubstr (lc "building") (pyLower p) || isSubstr (lc "tenant") (pyLower p))
    match building_permit_date with
    | some d =>
      if has_building_permit ∧ today - d ≤ 60 then
        some { eta_start := today + 45, eta_end := today + 90, eta_days := 67
               confidence_0_1 := mkRat 11 20
               rule_name := lc "medium_plan_review_building"
               signals_used := [lc "hcph_plan_review", lc "building_permit"] }
      else none
    | none => none

/-- Model of `ETARulesEngine._rule_health_plan_review_only`. -/
def rule_health_plan_review_only (parse : Str → Option ℤ) (today : ℤ)
    (signals : Signals) : Option ETARuleResult :=
  let health_status := pyLower signals.health_status
  if isSubstr (lc "plan_review_approved") health_status then
    match get_latest_milestone_date parse signals.milestone_dates
        [lc "plan", lc "approved"] with
    | some approval_date =>
      if today - approval_date ≤ 45 then
        some { eta_start := today + 45, eta_end := today + 90, eta_days := 67
               confidence_0_1 := mkRat 3 5
               rule_name := lc "health_plan_review_only"
               signals_used := [lc "hcph_plan_approved_recent"] }
      else none
    | none => none
  else none

/-- Multiplier of `ETARulesEngine._apply_downweight_factors` before the
final `max(multiplier, 0.1)` clamp. -/
def downweight_core (candidate_data : RawRecord) (signals : Signals) : ℚ :=
  let m := mkRat 1 1
  let m := if candidate_data.address = [] ∨ (pyStrip candidate_data.address).length < 10
    then qmul m (mkRat 9 10) else m
  let m := if candidate_data.venue_name = [] ∨ (pyStrip candidate_data.venue_name).length < 3
    then qmul m (mkRat 9 10) else m
  let m := if signals.permit_types.any (fun p =>
      [lc "expired", lc "voided", lc "cancelled", lc "denied"].any
        (fun term => isSubstr term (pyLower p)))
    then qmul m (mkRat 7 10) else m
  let tabc_status := pyLower ((signals.tabc_status).getD [])
  if [lc "inactive", lc "denied", lc "rejected", lc "cancelled", lc "withdrawn"].any
      (fun term => isSubstr term tabc_status)
    then qmul m (mkRat 1 2) else m

/-- Model of `ETARulesEngine._apply_downweight_factors`. -/
def apply_downweight_factors (candidate_data : RawRecord) (signals : Signals) : ℚ :=
  max (downweight_core candidate_data signals) (mkRat 1 10)

/-- Python's `max(list, key=confidence)`: first element with the maximal
confidence. -/
def pickMaxByConf (results : List ETARuleResult) : Option ETARuleResult :=
  results.foldl
    (fun best r =>
      match best with
      | none => some r
      | some b => if r.confidence_0_1 > b.confidence_0_1 then some r else some b)
    none

/-- Rule ladder of `evaluate_candidate`, in source order. -/
def rule_results (parse : Str → Option ℤ) (today : ℤ)
    (signals : Signals) : List ETARuleResult :=
  ([rule_high_probability_ship parse today signals,
    rule_final_inspection_scheduled today signals,
    rule_strong_early_signal parse today signals,
    rule_medium_tabc_pending parse today signals,
    rule_medium_plan_review_building parse today signals,
    rule_health_plan_review_only parse today signals]).filterMap id

/-- Model of `ETARulesEngine.evaluate_candidate`: evaluate every rule,
down-weight each result's confidence, keep those at or above the 0.5
floor, return the highest-confidence survivor (or `none`). -/
def evaluate_candidate (parse : Str → Option ℤ) (today : ℤ)
    (candidate_data : RawRecord) (signals : Signals) : Option ETARuleResult :=
  let results := rule_results parse today signals
  let factor := apply_downweight_factors candidate_data signals
  let weighted := results.map (fun r =>
    { r with confidence_0_1 := qmul r.confidence_0_1 factor })
  let valid_results := weighted.filter (fun r => r.confidence_0_1 ≥ mkRat 1 2)
  pickMaxByConf valid_results

/-- Model of `ETARulesEngine.should_create_lead` (the gate): reject below
confidence 0.65, otherwise admit exactly when `eta_start` is at most 60
days out. -/
def should_create_lead (today : ℤ) (eta_result : ETARuleResult) : Bool :=
  if eta_result.confidence_0_1 < mkRat 13 20 then false
  else eta_result.eta_start ≤ today + 60

/-! ## Embedding of `app/agents/agent_eta.py` -/

/-- Generic insert-or-update on a Python dict in insertion order. -/
def alistUpsert {α β : Type} [DecidableEq α] : List (α × β) → α → β → List (α × β)
  | [], k, v => [(k, v)]
  | (k0, v0) :: t, k, v =>
    if k0 = k then (k0, v) :: t else (k0, v0) :: alistUpsert t k v

/-- Model of `ETAAgent._infer_health_status`. -/
def infer_health_status (source_flags : List (Str × Str)) (signals : SignalsBag) : Str :=
  let hc_health_flag := (dictGet? source_flags (lc "hc_health")).getD []
  if hc_health_flag ≠ [] then hc_health_flag
  else
    match signals.permit_types.findSome? (fun p =>
      let permit_lower := pyLower p
      if isSubstr (lc "plan review") permit_lower then
        some (if isSubstr (lc "approved") permit_lower then lc "plan_review_approved"
              else lc "plan_review_received")
      else if isSubstr (lc "food service") permit_lower then
        some (lc "food_service_permit")
      else none) with
    | some s => s
    | none => lc "unknown"

/-- Model of `ETAAgent._extract_signals_data`. -/
def extract_signals_data (candidate : RawRecord) : Signals :=
  { tabc_status := candidate.signals.tabc_status
    tabc_dates := candidate.signals.tabc_dates
    health_status := infer_health_status candidate.source_flags candidate.signals
    permit_types := candidate.signals.permit_types
    milestone_dates := candidate.signals.milestone_dates }

/-- Model of `ETAAgent._extract_milestone_text` (its `candidate` parameter
is unused by the source body). -/
def extract_milestone_text (signals : Signals) : Str :=
  let text_parts :=
    (match signals.tabc_status with
     | some t => if t ≠ [] then [lc "TABC Status: " ++ t] else []
     | none => []) ++
    (signals.tabc_dates.filterMap (fun kv =>
      if kv.2 ≠ [] then some (lc "TABC " ++ kv.1 ++ lc ": " ++ kv.2) else none)) ++
    (signals.permit_types.map (fun p => lc "Permit: " ++ p)) ++
    (signals.milestone_dates.filterMap (fun kv =>
      if kv.2 ≠ [] then some (kv.1 ++ lc ": " ++ kv.2) else none))
  List.intercalate (lc "\n") text_parts

/-- One parsed JSON reply item of the adjustment oracle (batch item or
single reply); absent keys are `none`.  Day counts in the reply are
integers, per the oracle's JSON schema. -/
structure LLMAdjustOutput where
  candidate_id : Option ℤ := none
  eta_days : Option ℤ := none
  confidence_0_1 : Option ℚ := none
  signals_considered : Option (List Str) := none
  rationale_text : Option Str := none
  deriving DecidableEq, Inhabited

/-- Model of `ETAAgent._create_validated_adjusted_result` (batch path). -/
def create_validated_adjusted_result (llm_output : LLMAdjustOutput)
    (original_result : ETARuleResult) : ETARuleResult :=
  let original_days := original_result.eta_days
  let adjusted_days0 := (llm_output.eta_days).getD original_days
  let adjusted_days :=
    if |adjusted_days0 - original_days| > 15 then
      original_days + (if adjusted_days0 > original_days then 15 else -15)
    else adjusted_days0
  let original_confidence := original_result.confidence_0_1
  let adjusted_confidence0 := (llm_output.confidence_0_1).getD original_confidence
  let adjusted_confidence1 :=
    if qabs (qsub adjusted_confidence0 original_confidence) > mkRat 1 10 then
      qadd original_confidence
        (if adjusted_confidence0 > original_confidence then mkRat 1 10 else mkRat (-1) 10)
    else adjusted_confidence0
  let adjusted_confidence := max (mkRat 0 1) (min (mkRat 1 1) adjusted_confidence1)
  let day_delta := adjusted_days - original_result.eta_days
  { eta_start := original_result.eta_start + day_delta
    eta_end := original_result.eta_end + day_delta
    eta_days := adjusted_days
    confidence_0_1 := adjusted_confidence
    rule_name := original_result.rule_name ++ lc "_llm_batch_adjusted"
    signals_used := (llm_output.signals_considered).getD original_result.signals_used
    rationale_text := (llm_output.rationale_text).getD (lc "LLM batch adjustment applied") }

/-- Model of the in-line validation of `ETAAgent._apply_llm_adjustment`
(single path; identical clamps, different name suffix and default
rationale). -/
def adjust_single_core (result_json : LLMAdjustOutput)
    (rule_result : ETARuleResult) : ETARuleResult :=
  let original_days := rule_result.eta_days
  let adjusted_days0 := (result_json.eta_days).getD original_days
  let adjusted_days :=
    if |adjusted_days0 - original_days| > 15 then
      original_days + (if adjusted_days0 > original_days then 15 else -15)
    else adjusted_days0
  let original_confidence := rule_result.confidence_0_1
  let adjusted_confidence0 := (result_json.confidence_0_1).getD original_confidence
  let adjusted_confidence1 :=
    if qabs (qsub adjusted_confidence0 original_confidence) > mkRat 1 10 then
      qadd original_confidence
        (if adjusted_confidence0 > original_confidence then mkRat 1 10 else mkRat (-1) 10)
    else adjusted_confidence0
  let adjusted_confidence := max (mkRat 0 1) (min (mkRat 1 1) adjusted_confidence1)
  let day_delta := adjusted_days - rule_result.eta_days
  { eta_start := rule_result.eta_start + day_delta
    eta_end := rule_result.eta_end + day_delta
    eta_days := adjusted_days
    confidence_0_1 := adjusted_confidence
    rule_name := rule_result.rule_name ++ lc "_llm_adjusted"
    signals_used := (result_json.signals_considered).getD rule_result.signals_used
    rationale_text := (result_json.rationale_text).getD (lc "LLM adjustment applied") }

/-- Model of `ETAAgent._apply_llm_adjustment`: an oracle failure (raise or
unparseable JSON) returns the rule result unchanged. -/
def apply_llm_adjustment
    (oracle : ETARuleResult → Str → Except Unit LLMAdjustOutput)
    (rule_result : ETARuleResult) (milestone_text : Str) : ETARuleResult :=
  match oracle rule_result milestone_text with
  | .error _ => rule_result
  | .ok result_json => adjust_single_core result_json rule_result

/-- Python list indexing `lst[i]` for a list of length `n`: non-negative
indices below `n`, negative indices counted from the end, anything else an
`IndexError`. -/
def python_list_idx (n : ℕ) (i : ℤ) : Option ℕ :=
  if 0 ≤ i ∧ i < (n : ℤ) then some i.toNat
  else if -(n : ℤ) ≤ i ∧ i < 0 then some ((n : ℤ) + i).toNat
  else none

def apply_batch_go (original_rule_results : List (Option ETARuleResult)) :
    List LLMAdjustOutput → List (ℤ × ETARuleResult) →
    Except Unit (List (ℤ × ETARuleResult))
  | [], acc => .ok acc
  | item :: rest, acc =>
    match item.candidate_id with
    | none => apply_batch_go original_rule_results rest acc
    | some cid =>
      match python_list_idx original_rule_results.length cid with
      | none => .error ()
      | some idx =>
        match original_rule_results.getD idx none with
        | none => apply_batch_go original_rule_results rest acc
        | some original_result =>
          apply_batch_go original_rule_results rest
            (alistUpsert acc cid (create_validated_adjusted_result item original_result))

/-- Model of `ETAAgent._apply_batch_llm_adjustment`.  The oracle value is
the parsed JSON reply of the batch tool (`.error` models a raised call or
unparseable/ill-typed reply).  The item loop runs inside the same `try`:
an id that is out of range for `original_rule_results` raises `IndexError`,
and the `except` then discards every adjustment (`return {}`). -/
def apply_batch_llm_adjustment
    (oracle : List (ℕ × ETARuleResult × Str) → Except Unit (List LLMAdjustOutput))
    (batch_inputs : List (ℕ × ETARuleResult × Str))
    (original_rule_results : List (Option ETARuleResult)) :
    List (ℤ × ETARuleResult) :=
  match oracle batch_inputs with
  | .error _ => []
  | .ok adjusted_json =>
    match apply_batch_go original_rule_results adjusted_json [] with
    | .ok adjusted_results => adjusted_results
    | .error _ => []

/-- Model of `ETAAgent._estimate_batch_candidates`: rule evaluation for
every candidate, batch LLM adjustment of those with a rule result and a
long-enough milestone text, then in-place overwrite of the adjusted
slots (Python list assignment, so a negative dict key counts from the
end). -/
def batch_rule_results (parse : Str → Option ℤ) (today : ℤ)
    (candidates : List RawRecord) : List (Option ETARuleResult) :=
  candidates.map (fun c => evaluate_candidate parse today c (extract_signals_data c))

/-- Step 2 of `_estimate_batch_candidates`: the `{candidate_id,
rule_result, milestone_text}` items sent to the batch oracle (only
candidates with a rule result and a stripped milestone text longer than
20 characters). -/
def batch_llm_inputs (parse : Str → Option ℤ) (today : ℤ)
    (candidates : List RawRecord) : List (ℕ × ETARuleResult × Str) :=
  (List.range candidates.length).filterMap (fun i =>
    match (batch_rule_results parse today candidates).getD i none with
    | some rule_result =>
      let signals := extract_signals_data (candidates.getD i {})
      let milestone_text := extract_milestone_text signals
      if milestone_text ≠ [] ∧ (pyStrip milestone_text).length > 20 then
        some (i, rule_result, milestone_text)
      else none
    | none => none)

def estimate_batch_candidates (parse : Str → Option ℤ) (today : ℤ)
    (oracle : List (ℕ × ETARuleResult × Str) → Except Unit (List LLMAdjustOutput))
    (candidates : List RawRecord) : List (Option ETARuleResult) :=
  let rule_results_list := batch_rule_results parse today candidates
  let llm_batch_inputs := batch_llm_inputs parse today candidates
  if llm_batch_inputs ≠ [] then
    let adjusted_results :=
      apply_batch_llm_adjustment oracle llm_batch_inputs rule_results_list
    adjusted_results.foldl
      (fun final_results p =>
        match python_list_idx final_results.length p.1 with
        | some idx => final_results.set idx (some p.2)
        | none => final_results)
      rule_results_list
  else rule_results_list

/-! ## Supporting definitions for the claims -/

/-- The behaviour of `datetime.fromisoformat` on the two well-formed ISO
strings of the mixed-awareness milestone map: `"2024-01-01"` parses
offset-naive (day 0 of 2024), `"2024-06-01T00:00:00Z"` — after the
`'Z' → '+00:00'` replacement — parses offset-aware, 152 days later. -/
def parse_mixed : Str → Option PyDateTime := fun s =>
  if s = lc "2024-01-01" then some ⟨0, false⟩
  else if s = lc "2024-06-01T00:00:00+00:00" then some ⟨152, true⟩
  else none

/-- Score/weight invariant threaded through `calculate_address_similarity`. -/
def swInv (sw : ℚ × ℚ) : Prop := 0 ≤ sw.1 ∧ sw.1 ≤ sw.2

/-- No leading whitespace (the invariant `str.strip` maintains). -/
def noLeadWs (xs : Str) : Prop := ∀ c ∈ xs.head?, pyIsSpace c = false

/-- Last truthy value for a key across a group, in group order — what the
flag-union loop of `_merge_group_records` actually keeps. -/
def lastTruthyFlag (records : List RawRecord) (k : Str) : Option Str :=
  records.foldl
    (fun acc r =>
      match dictGet? r.source_flags k with
      | some v => if v ≠ [] then some v else acc
      | none => acc)
    none

/-- Concrete candidate whose final-inspection rule fires and whose
milestone text is long enough for the batch oracle to be consulted. -/
def batch_cand : RawRecord :=
  { venue_name := lc "abc", address := lc "123 somewhere st",
    signals := { permit_types := [lc "final inspection"] } }


/-! ## Claims -/

/-- C2.  The lead-creation gate is an exact iff: `should_create_lead`
admits a rule result exactly when its confidence is at least 0.65 and its
`eta_start` is at most 60 days after `today`; in particular confidence
0.70 with start at today+70 is rejected, 0.60 with start at today+10 is
rejected, and 0.70 with start at today+10 is admitted. -/
theorem gate_admits_iff (today : ℤ) (r : ETARuleResult) :
    (should_create_lead today r = true ↔
      (65/100 : ℚ) ≤ r.confidence_0_1 ∧ r.eta_start ≤ today + 60) ∧
    should_create_lead today
      { r with confidence_0_1 := 7/10, eta_start := today + 70 } = false ∧
    should_create_lead today
      { r with confidence_0_1 := 6/10, eta_start := today + 10 } = false ∧
    should_create_lead today
      { r with confidence_0_1 := 7/10, eta_start := today + 10 } = true := by
  have h1320 : (mkRat 13 20 : ℚ) = 65/100 := by norm_num [Rat.mkRat_eq_div]
  refine ⟨?_, ?_, ?_, ?_⟩
  · rw [should_create_lead, h1320]
    split_ifs with h
    · simp only [Bool.false_eq_true, false_iff, not_and]
      intro h2
      exact absurd h2 (not_le.mpr h)
    · simp only [decide_eq_true_eq]
      exact ⟨fun h2 => ⟨not_lt.mp h, h2⟩, fun h2 => h2.2⟩
  · rw [should_create_lead, h1320]
    rw [if_neg (by norm_num)]
    simp only [decide_eq_false_iff_not, not_le]
    omega
  · rw [should_create_lead, h1320]
    rw [if_pos (by norm_num)]
  · rw [should_create_lead, h1320]
    rw [if_neg (by norm_num)]
    simp only [decide_eq_true_eq]
    omega

/-- Witness for `gate_admits_iff` at a concrete result. -/
theorem gate_admits_iff_witness :
    should_create_lead 0
      { ({ eta_start := 0, eta_end := 0, eta_days := 0, confidence_0_1 := 0,
           rule_name := [], signals_used := [] } : ETARuleResult) with
        confidence_0_1 := 7/10, eta_start := (0 : ℤ) + 10 } = true :=
  (gate_admits_iff 0
    { eta_start := 0, eta_end := 0, eta_days := 0, confidence_0_1 := 0,
      rule_name := [], signals_used := [] }).2.2.2

lemma days_clamp (od d0 : ℤ) :
    |(if |d0 - od| > 15 then od + (if d0 > od then 15 else -15) else d0) - od| ≤ 15 := by
  split_ifs with h1 h2
  · rw [show od + 15 - od = (15 : ℤ) by ring]
    norm_num
  · rw [show od + -15 - od = (-15 : ℤ) by ring]
    norm_num
  · exact le_of_not_lt h1

lemma conf_clamp (oc c0 : ℚ) (h0 : 0 ≤ oc) (h1 : oc ≤ 1) :
    |max (mkRat 0 1) (min (mkRat 1 1)
        (if qabs (qsub c0 oc) > mkRat 1 10 then
          qadd oc (if c0 > oc then mkRat 1 10 else mkRat (-1) 10) else c0)) - oc| ≤ 1/10 ∧
      0 ≤ max (mkRat 0 1) (min (mkRat 1 1)
        (if qabs (qsub c0 oc) > mkRat 1 10 then
          qadd oc (if c0 > oc then mkRat 1 10 else mkRat (-1) 10) else c0)) ∧
      max (mkRat 0 1) (min (mkRat 1 1)
        (if qabs (qsub c0 oc) > mkRat 1 10 then
          qadd oc (if c0 > oc then mkRat 1 10 else mkRat (-1) 10) else c0)) ≤ 1 := by
  have e0 : (mkRat 0 1 : ℚ) = 0 := by norm_num
  have e1 : (mkRat 1 1 : ℚ) = 1 := by norm_num [Rat.mkRat_eq_div]
  have e10 : (mkRat 1 10 : ℚ) = 1/10 := by norm_num [Rat.mkRat_eq_div]
  have en10 : (mkRat (-1) 10 : ℚ) = -(1/10) := by norm_num [Rat.mkRat_eq_div]
  simp only [qabs_eq, qsub_eq, qadd_eq, e0, e1, e10, en10]
  set c1 := (if |c0 - oc| > 1/10 then oc + (if c0 > oc then 1/10 else -(1/10)) else c0) with hc1def
  have hc1 : |c1 - oc| ≤ 1/10 := by
    rw [hc1def]
    split_ifs with ha hb
    · rw [show oc + 1/10 - oc = (1/10 : ℚ) by ring]
      rw [abs_le]
      norm_num
    · rw [show oc + -(1/10) - oc = (-(1/10) : ℚ) by ring]
      rw [abs_le]
      norm_num
    · exact le_of_not_lt ha
  rw [abs_le] at hc1
  refine ⟨?_, le_max_left _ _, max_le (by norm_num) (min_le_left _ _)⟩
  rw [abs_le]
  rcases le_total c1 1 with hm | hm
  · rw [min_eq_right hm]
    rcases le_total 0 c1 with hz | hz
    · rw [max_eq_right hz]
      exact hc1
    · rw [max_eq_left hz]
      constructor <;> linarith
  · rw [min_eq_left hm]
    rw [max_eq_right (by norm_num : (0:ℚ) ≤ 1)]
    constructor <;> linarith

/-- C3.  Bounded oracle adjustment: for every original rule result (with
confidence in [0,1], the data-model range) and every oracle reply, both
the batch validator `_create_validated_adjusted_result` and the single
path of `_apply_llm_adjustment` produce a result whose `eta_days` moved by
at most 15, whose confidence moved by at most 0.10 and stays in [0,1],
and whose `eta_start`/`eta_end` are the originals shifted by exactly the
`eta_days` delta. -/
theorem adjustment_clamped (out : LLMAdjustOutput) (orig : ETARuleResult)
    (h0 : 0 ≤ orig.confidence_0_1) (h1 : orig.confidence_0_1 ≤ 1) :
    (|(create_validated_adjusted_result out orig).eta_days - orig.eta_days| ≤ 15 ∧
     |(create_validated_adjusted_result out orig).confidence_0_1 - orig.confidence_0_1| ≤ 1/10 ∧
     0 ≤ (create_validated_adjusted_result out orig).confidence_0_1 ∧
     (create_validated_adjusted_result out orig).confidence_0_1 ≤ 1 ∧
     (create_validated_adjusted_result out orig).eta_start =
       orig.eta_start + ((create_validated_adjusted_result out orig).eta_days - orig.eta_days) ∧
     (create_validated_adjusted_result out orig).eta_end =
       orig.eta_end + ((create_validated_adjusted_result out orig).eta_days - orig.eta_days)) ∧
    (|(adjust_single_core out orig).eta_days - orig.eta_days| ≤ 15 ∧
     |(adjust_single_core out orig).confidence_0_1 - orig.confidence_0_1| ≤ 1/10 ∧
     0 ≤ (adjust_single_core out orig).confidence_0_1 ∧
     (adjust_single_core out orig).confidence_0_1 ≤ 1 ∧
     (adjust_single_core out orig).eta_start =
       orig.eta_start + ((adjust_single_core out orig).eta_days - orig.eta_days) ∧
     (adjust_single_core out orig).eta_end =
       orig.eta_end + ((adjust_single_core out orig).eta_days - orig.eta_days)) := by
  have hd := days_clamp orig.eta_days ((out.eta_days).getD orig.eta_days)
  have hc := conf_clamp orig.confidence_0_1
    ((out.confidence_0_1).getD orig.confidence_0_1) h0 h1
  constructor
  · simp only [create_validated_adjusted_result]
    exact ⟨hd, hc.1, hc.2.1, hc.2.2, by trivial, by trivial⟩
  · simp only [adjust_single_core]
    exact ⟨hd, hc.1, hc.2.1, hc.2.2, by trivial, by trivial⟩

/-- Witness for `adjustment_clamped` at a concrete reply and result. -/
theorem adjustment_clamped_witness :
    (0 ≤ (mkRat 3 4 : ℚ) ∧ (mkRat 3 4 : ℚ) ≤ 1) ∧
    |(create_validated_adjusted_result
        { eta_days := some 100, confidence_0_1 := some (mkRat 99 100) }
        { eta_start := 100, eta_end := 130, eta_days := 45,
          confidence_0_1 := mkRat 3 4, rule_name := [], signals_used := [] }).eta_days
      - (45 : ℤ)| ≤ 15 :=
  ⟨⟨by decide, by decide⟩,
   (adjustment_clamped
      { eta_days := some 100, confidence_0_1 := some (mkRat 99 100) }
      { eta_start := 100, eta_end := 130, eta_days := 45,
        confidence_0_1 := mkRat 3 4, rule_name := [], signals_used := [] }
      (by decide) (by decide)).1.1⟩

lemma glmd_dt_fold_eq (parse : Str → Option PyDateTime) (keywords : List Str) :
    ∀ (dates : List (Str × Str)) (acc : Option PyDateTime),
      dates.foldl (glmdEntryStep parse keywords) acc =
        (milestone_matching_values_dt parse dates keywords).foldl glmdStepDt acc := by
  intro dates
  induction dates with
  | nil => intro acc; simp [milestone_matching_values_dt]
  | cons kv t ih =>
    intro acc
    by_cases hm : keywords.any (fun kw => isSubstr kw (pyLower kv.1))
    · cases hp : parse (replaceAll (lc "Z") (lc "+00:00") kv.2) with
      | none =>
        have hv : milestone_matching_values_dt parse (kv :: t) keywords =
            milestone_matching_values_dt parse t keywords := by
          simp [milestone_matching_values_dt, hm, hp]
        have hstep : glmdEntryStep parse keywords acc kv = acc := by
          simp [glmdEntryStep, hm, hp]
        rw [List.foldl_cons, hstep, ih acc, hv]
      | some dt =>
        have hv : milestone_matching_values_dt parse (kv :: t) keywords =
            dt :: milestone_matching_values_dt parse t keywords := by
          simp [milestone_matching_values_dt, hm, hp]
        have hstep : glmdEntryStep parse keywords acc kv = glmdStepDt acc dt := by
          simp [glmdEntryStep, hm, hp]
        rw [List.foldl_cons, hstep, ih (glmdStepDt acc dt), hv, List.foldl_cons]
    · have hv : milestone_matching_values_dt parse (kv :: t) keywords =
          milestone_matching_values_dt parse t keywords := by
        simp [milestone_matching_values_dt, hm]
      have hstep : glmdEntryStep parse keywords acc kv = acc := by
        simp [glmdEntryStep, hm]
      rw [List.foldl_cons, hstep, ih acc, hv]

lemma glmdStepDt_sound (acc : Option PyDateTime) (v dt : PyDateTime)
    (h : glmdStepDt acc v = some dt) : dt = v ∨ acc = some dt := by
  cases acc with
  | none =>
    have h' : some v = some dt := h
    exact Or.inl (Option.some.inj h').symm
  | some l =>
    have h' : (match pyDtGt v l with
        | some true => some v
        | some false => some l
        | none => some l) = some dt := h
    rcases hg : pyDtGt v l with _ | b
    · simp only [hg] at h'
      exact Or.inr h'
    · cases b with
      | false =>
        simp only [hg] at h'
        exact Or.inr h'
      | true =>
        simp only [hg] at h'
        exact Or.inl (Option.some.inj h').symm

lemma glmd_fold_mem :
    ∀ (vs : List PyDateTime) (acc : Option PyDateTime) (dt : PyDateTime),
      vs.foldl glmdStepDt acc = some dt → dt ∈ vs ∨ acc = some dt := by
  intro vs
  induction vs with
  | nil => intro acc dt h; exact Or.inr h
  | cons v t ih =>
    intro acc dt h
    rw [List.foldl_cons] at h
    rcases ih (glmdStepDt acc v) dt h with hmem | hacc
    · exact Or.inl (List.mem_cons_of_mem v hmem)
    · rcases glmdStepDt_sound acc v dt hacc with hv | ha
      · subst hv
        exact Or.inl (List.mem_cons_self dt t)
      · exact Or.inr ha

lemma glmd_fold_max_acc :
    ∀ (vs : List PyDateTime) (l : PyDateTime),
      (∀ b ∈ vs, b.aware = l.aware) →
      (vs.foldl glmdStepDt (some l)).map PyDateTime.ts =
        some ((vs.map PyDateTime.ts).foldl max l.ts) := by
  intro vs
  induction vs with
  | nil => intro l _; rfl
  | cons v t ih =>
    intro l hhom
    have hva : v.aware = l.aware := hhom v (List.mem_cons_self v t)
    have hgt : pyDtGt v l = some (decide (l.ts < v.ts)) := by
      simp [pyDtGt, hva]
    by_cases hlt : l.ts < v.ts
    · have hstep : glmdStepDt (some l) v = some v := by
        simp [glmdStepDt, hgt, hlt]
      have hta : ∀ b ∈ t, b.aware = v.aware := by
        intro b hb
        rw [hhom b (List.mem_cons_of_mem v hb), hva]
      rw [List.foldl_cons, hstep, ih v hta, List.map_cons, List.foldl_cons,
        max_eq_right hlt.le]
    · have hstep : glmdStepDt (some l) v = some l := by
        simp [glmdStepDt, hgt, hlt]
      have htl : ∀ b ∈ t, b.aware = l.aware := fun b hb =>
        hhom b (List.mem_cons_of_mem v hb)
      rw [List.foldl_cons, hstep, ih l htl, List.map_cons, List.foldl_cons,
        max_eq_left (not_lt.mp hlt)]

lemma glmd_fold_max (vs : List PyDateTime)
    (hhom : ∀ a ∈ vs, ∀ b ∈ vs, a.aware = b.aware) :
    (vs.foldl glmdStepDt none).map PyDateTime.ts = (vs.map PyDateTime.ts).max? := by
  cases vs with
  | nil => rfl
  | cons v t =>
    have hta : ∀ b ∈ t, b.aware = v.aware := fun b hb =>
      hhom b (List.mem_cons_of_mem v hb) v (List.mem_cons_self v t)
    have h1 : glmdStepDt none v = some v := rfl
    rw [List.foldl_cons, h1, glmd_fold_max_acc t v hta, List.map_cons, List.max?_cons']

/-- C4 counterexample: a milestone map holding a keyword-matching
offset-naive `"2024-01-01"` and a keyword-matching offset-aware
`"2024-06-01T00:00:00Z"` — both of which parse — makes
`_get_latest_milestone_date` return the January date: the comparison of
the later June date against it raises a `TypeError` (offset-naive vs
offset-aware) that the `except` catches, dropping the parsed value.  The
June date is among the parseable matching values, so the result is not
their maximum, and reversing the insertion order of the same two entries
returns the June date instead: the result is order-dependent. -/
theorem milestone_mixed_awareness_counterexample :
    get_latest_milestone_date_dt parse_mixed
      [(lc "plan_a", lc "2024-01-01"), (lc "plan_b", lc "2024-06-01T00:00:00Z")]
      [lc "plan"] = some ⟨0, false⟩ ∧
    (⟨152, true⟩ : PyDateTime) ∈ milestone_matching_values_dt parse_mixed
      [(lc "plan_a", lc "2024-01-01"), (lc "plan_b", lc "2024-06-01T00:00:00Z")]
      [lc "plan"] ∧
    get_latest_milestone_date_dt parse_mixed
      [(lc "plan_b", lc "2024-06-01T00:00:00Z"), (lc "plan_a", lc "2024-01-01")]
      [lc "plan"] = some ⟨152, true⟩ := by
  decide

/-- C4 (corrected).  Milestone-date extraction is total — every
`ValueError`/`TypeError` raised inside the loop is caught — and an entry
whose value does not parse contributes nothing: appending it never changes
the result the rules' age computations consume.  Any returned date is the
parsed value of some keyword-matching entry, and whenever all parseable
matching values lie in a single timezone-awareness class the result is
exactly their maximum.  Between awareness classes, however, the caught
`TypeError` of `dt > latest_date` drops a successfully parsed date, so the
unconditional maximum semantics fails (see the counterexample above). -/
theorem latest_milestone_homogeneous_max (parse : Str → Option PyDateTime)
    (dates : List (Str × Str)) (keywords : List Str) :
    (∀ dt, get_latest_milestone_date_dt parse dates keywords = some dt →
        dt ∈ milestone_matching_values_dt parse dates keywords) ∧
    (∀ k v, parse (replaceAll (lc "Z") (lc "+00:00") v) = none →
        get_latest_milestone_date_dt parse (dates ++ [(k, v)]) keywords =
          get_latest_milestone_date_dt parse dates keywords) ∧
    ((∀ a ∈ milestone_matching_values_dt parse dates keywords,
        ∀ b ∈ milestone_matching_values_dt parse dates keywords,
          a.aware = b.aware) →
      (get_latest_milestone_date_dt parse dates keywords).map PyDateTime.ts =
        ((milestone_matching_values_dt parse dates keywords).map PyDateTime.ts).max?) := by
  have hfold : ∀ ds, get_latest_milestone_date_dt parse ds keywords =
      (milestone_matching_values_dt parse ds keywords).foldl glmdStepDt none := by
    intro ds
    rw [get_latest_milestone_date_dt, glmd_dt_fold_eq]
  refine ⟨?_, ?_, ?_⟩
  · intro dt h
    rw [hfold] at h
    rcases glmd_fold_mem _ none dt h with hmem | hacc
    · exact hmem
    · exact Option.noConfusion hacc
  · intro k v hp
    have hv : milestone_matching_values_dt parse (dates ++ [(k, v)]) keywords =
        milestone_matching_values_dt parse dates keywords := by
      simp only [milestone_matching_values_dt, List.filter_append, List.filterMap_append]
      by_cases hm : keywords.any (fun kw => isSubstr kw (pyLower k))
      · simp [hm, hp]
      · simp [hm]
    rw [hfold, hfold, hv]
  · intro hhom
    rw [hfold]
    exact glmd_fold_max _ hhom

/-- Witness for `latest_milestone_homogeneous_max`: on a concrete milestone
map whose only parseable matching value is offset-naive, the extracted
date is the maximum of the parseable matching values, and appending a
malformed trailing entry leaves the result unchanged. -/
theorem latest_milestone_homogeneous_max_witness :
    (get_latest_milestone_date_dt parse_mixed
        [(lc "plan_a", lc "2024-01-01"), (lc "plan_x", lc "oops")]
        [lc "plan"]).map PyDateTime.ts =
      ((milestone_matching_values_dt parse_mixed
        [(lc "plan_a", lc "2024-01-01"), (lc "plan_x", lc "oops")]
        [lc "plan"]).map PyDateTime.ts).max? ∧
    get_latest_milestone_date_dt parse_mixed
      ([(lc "plan_a", lc "2024-01-01")] ++ [(lc "plan_x", lc "oops")]) [lc "plan"] =
      get_latest_milestone_date_dt parse_mixed
        [(lc "plan_a", lc "2024-01-01")] [lc "plan"] :=
  ⟨(latest_milestone_homogeneous_max parse_mixed
      [(lc "plan_a", lc "2024-01-01"), (lc "plan_x", lc "oops")] [lc "plan"]).2.2
      (by decide),
   (latest_milestone_homogeneous_max parse_mixed
      [(lc "plan_a", lc "2024-01-01")] [lc "plan"]).2.1
      (lc "plan_x") (lc "oops") (by decide)⟩

lemma inter_le_union (a b : List Str) : setInterCard a b ≤ setUnionCard a b := by
  have h1 : setInterCard a b ≤ a.dedup.length := List.length_filter_le _ _
  have h2 : a.dedup.length ≤ (a ++ b).dedup.length := by
    rw [← List.card_toFinset, ← List.card_toFinset]
    exact Finset.card_le_card (by
      rw [List.toFinset_append]
      exact Finset.subset_union_left)
  exact h1.trans h2

lemma string_similarity_bounds (s1 s2 : Str) :
    0 ≤ string_similarity s1 s2 ∧ string_similarity s1 s2 ≤ 1 := by
  simp only [string_similarity]
  by_cases h1 : s1 = [] ∨ s2 = []
  · rw [if_pos h1]
    norm_num
  rw [if_neg h1]
  by_cases h2 : s1 = s2
  · rw [if_pos h2]
    norm_num [Rat.mkRat_eq_div]
  rw [if_neg h2]
  by_cases h3 : pySplitWs s1 = [] ∨ pySplitWs s2 = []
  · rw [if_pos h3]
    norm_num
  rw [if_neg h3]
  by_cases h4 : setUnionCard (pySplitWs s1) (pySplitWs s2) > 0
  · rw [if_pos h4, qdiv_eq]
    simp only [Rat.mkRat_one]
    have hu : (0 : ℚ) < ((setUnionCard (pySplitWs s1) (pySplitWs s2) : ℤ) : ℚ) := by
      exact_mod_cast h4
    constructor
    · positivity
    · rw [div_le_one hu]
      exact_mod_cast inter_le_union (pySplitWs s1) (pySplitWs s2)
  · rw [if_neg h4]
    norm_num

lemma string_similarity_self (s : Str) (hs : s ≠ []) : string_similarity s s = 1 := by
  rw [string_similarity, if_neg (by simp [hs]), if_pos rfl]
  norm_num [Rat.mkRat_eq_div]

lemma swInv_exact (w₀ : ℚ) (hw : 0 ≤ w₀) {A B C : Prop}
    [Decidable A] [Decidable B] [Decidable C] (sw : ℚ × ℚ) (h : swInv sw) :
    swInv (if A then (if B then qadd sw.1 w₀ else sw.1, qadd sw.2 w₀)
           else if C then (sw.1, qadd sw.2 w₀) else sw) := by
  obtain ⟨h1, h2⟩ := h
  split_ifs <;> constructor <;> (try simp only [qadd_eq]) <;> linarith

lemma swInv_scaled (w₀ ms : ℚ) (hw : 0 ≤ w₀) (hms0 : 0 ≤ ms) (hms1 : ms ≤ 1)
    {A C : Prop} [Decidable A] [Decidable C] (sw : ℚ × ℚ) (h : swInv sw) :
    swInv (if A then (qadd sw.1 (qmul w₀ ms), qadd sw.2 w₀)
           else if C then (sw.1, qadd sw.2 w₀) else sw) := by
  obtain ⟨h1, h2⟩ := h
  have hprod0 : 0 ≤ w₀ * ms := mul_nonneg hw hms0
  have hprod1 : w₀ * ms ≤ w₀ := mul_le_of_le_one_right hw hms1
  split_ifs <;> constructor <;> (try simp only [qadd_eq, qmul_eq]) <;> linarith

lemma final_div_bounds (sw : ℚ × ℚ) (h : swInv sw) :
    0 ≤ (if sw.2 > mkRat 0 1 then qdiv sw.1 sw.2 else mkRat 0 1) ∧
      (if sw.2 > mkRat 0 1 then qdiv sw.1 sw.2 else mkRat 0 1) ≤ 1 := by
  obtain ⟨h1, h2⟩ := h
  have e0 : (mkRat 0 1 : ℚ) = 0 := by norm_num
  rw [e0]
  split_ifs with hw
  · rw [qdiv_eq]
    constructor
    · positivity
    · rw [div_le_one hw]
      exact h2
  · norm_num

lemma truthy_getD {o : Option Str} (h : truthyOpt o = true) : o.getD [] ≠ [] := by
  cases o with
  | none => simp [truthyOpt] at h
  | some s =>
    cases s with
    | nil => simp [truthyOpt] at h
    | cons c t => simp

set_option maxHeartbeats 1600000 in
/-- C9.  Address similarity is bounded and normalized: it always lies in
[0, 1]; a missing/empty input yields exactly 0.0 (and never raises, the
function being total); and a fully specified address (street number,
street name, city and ZIP all parsed present) has self-similarity 1. -/
theorem address_similarity_bounds (a b : Str) :
    (0 ≤ calculate_address_similarity a b ∧ calculate_address_similarity a b ≤ 1) ∧
    (a = [] ∨ b = [] → calculate_address_similarity a b = 0) ∧
    (truthyOpt (parse_address a).street_number = true →
     truthyOpt (parse_address a).street_name = true →
     truthyOpt (parse_address a).city = true →
     truthyOpt (parse_address a).zip_code = true →
     calculate_address_similarity a a = 1) := by
  refine ⟨?_, ?_, ?_⟩
  · simp only [calculate_address_similarity]
    by_cases he : a = [] ∨ b = []
    · rw [if_pos he]
      norm_num
    · rw [if_neg he]
      have hss := string_similarity_bounds
        (pyLower (((parse_address a).street_name).getD []))
        (pyLower (((parse_address b).street_name).getD []))
      have H0 : swInv (mkRat 0 1, mkRat 0 1) := ⟨by norm_num, by norm_num⟩
      exact final_div_bounds _
        (swInv_exact (mkRat 1 10) (by norm_num) _
          (swInv_exact (mkRat 1 5) (by norm_num) _
            (swInv_scaled (mkRat 3 10) _ (by norm_num) hss.1 hss.2 _
              (swInv_exact (mkRat 2 5) (by norm_num) _ H0))))
  · intro h
    simp only [calculate_address_similarity]
    rw [if_pos h]
    norm_num
  · intro hn hs hc hz
    have ha : a ≠ [] := by
      intro h
      rw [h] at hn
      simp [parse_address, truthyOpt] at hn
    have hsn : pyLower (((parse_address a).street_name).getD []) ≠ [] := by
      have := truthy_getD hs
      simpa [pyLower] using this
    simp only [calculate_address_similarity]
    rw [if_neg (by simp [ha])]
    simp only [hn, hs, hc, hz, and_self, eq_self_iff_true, if_true]
    rw [string_similarity_self _ hsn]
    norm_num [qadd_eq, qmul_eq, qdiv_eq, Rat.mkRat_eq_div]

/-- Witness for `address_similarity_bounds`: self-similarity 1 at a fully
specified address. -/
theorem address_similarity_bounds_witness :
    calculate_address_similarity (lc "123 Main St, Houston, TX 77001")
      (lc "123 Main St, Houston, TX 77001") = 1 :=
  (address_similarity_bounds (lc "123 Main St, Houston, TX 77001")
      (lc "123 Main St, Houston, TX 77001")).2.2
    (by decide) (by decide) (by decide) (by decide)

lemma conf_of_high_probability_ship {parse : Str → Option ℤ} {today : ℤ}
    {signals : Signals} {r : ETARuleResult}
    (h : rule_high_probability_ship parse today signals = some r) :
    r.confidence_0_1 = mkRat 3 4 := by
  rcases hm : get_latest_milestone_date parse signals.milestone_dates
      [lc "plan", lc "approved"] with _ | d <;>
    simp only [rule_high_probability_ship, hm] at h <;>
    split_ifs at h <;> first
      | exact Option.noConfusion h
      | (have he := Option.some.inj h; subst he; rfl)

lemma conf_of_strong_early_signal {parse : Str → Option ℤ} {today : ℤ}
    {signals : Signals} {r : ETARuleResult}
    (h : rule_strong_early_signal parse today signals = some r) :
    r.confidence_0_1 = mkRat 7 10 := by
  rcases hm : get_latest_milestone_date parse signals.milestone_dates
      [lc "application", lc "filed"] with _ | d <;>
    simp only [rule_strong_early_signal, hm] at h <;>
    split_ifs at h <;> first
      | exact Option.noConfusion h
      | (have he := Option.some.inj h; subst he; rfl)

lemma conf_of_final_inspection {today : ℤ} {signals : Signals} {r : ETARuleResult}
    (h : rule_final_inspection_scheduled today signals = some r) :
    r.confidence_0_1 = mkRat 4 5 := by
  simp only [rule_final_inspection_scheduled] at h
  split_ifs at h <;> first
    | exact Option.noConfusion h
    | (have he := Option.some.inj h; subst he; rfl)

lemma conf_of_medium_tabc {parse : Str → Option ℤ} {today : ℤ}
    {signals : Signals} {r : ETARuleResult}
    (h : rule_medium_tabc_pending parse today signals = some r) :
    r.confidence_0_1 = mkRat 13 20 ∨ r.confidence_0_1 = mkRat 3 5 := by
  rcases hm : get_latest_milestone_date parse signals.tabc_dates
      [lc "application", lc "filed"] with _ | d <;>
    simp only [rule_medium_tabc_pending, hm] at h <;>
    split_ifs at h <;> first
      | exact Option.noConfusion h
      | (have he := Option.some.inj h; subst he; exact Or.inl rfl)
      | (have he := Option.some.inj h; subst he; exact Or.inr rfl)

lemma conf_of_medium_plan_review {parse : Str → Option ℤ} {today : ℤ}
    {signals : Signals} {r : ETARuleResult}
    (h : rule_medium_plan_review_building parse today signals = some r) :
    r.confidence_0_1 = mkRat 11 20 := by
  rcases hm : get_latest_milestone_date parse signals.milestone_dates
      [lc "building", lc "tenant"] with _ | d <;>
    simp only [rule_medium_plan_review_building, hm] at h <;>
    split_ifs at h <;> first
      | exact Option.noConfusion h
      | (have he := Option.some.inj h; subst he; rfl)

lemma conf_of_health_plan_review {parse : Str → Option ℤ} {today : ℤ}
    {signals : Signals} {r : ETARuleResult}
    (h : rule_health_plan_review_only parse today signals = some r) :
    r.confidence_0_1 = mkRat 3 5 := by
  rcases hm : get_latest_milestone_date parse signals.milestone_dates
      [lc "plan", lc "approved"] with _ | d <;>
    simp only [rule_health_plan_review_only, hm] at h <;>
    split_ifs at h <;> first
      | exact Option.noConfusion h
      | (have he := Option.some.inj h; subst he; rfl)

lemma rule_results_conf (parse : Str → Option ℤ) (today : ℤ) (signals : Signals) :
    ∀ r ∈ rule_results parse today signals,
      0 ≤ r.confidence_0_1 ∧ r.confidence_0_1 ≤ mkRat 4 5 := by
  intro r hr
  simp only [rule_results, List.mem_filterMap, id_eq] at hr
  obtain ⟨o, ho, hid⟩ := hr
  subst hid
  simp only [List.mem_cons, List.not_mem_nil, or_false] at ho
  rcases ho with h | h | h | h | h | h
  · rw [conf_of_high_probability_ship h.symm]
    constructor <;> norm_num [Rat.mkRat_eq_div]
  · rw [conf_of_final_inspection h.symm]
    constructor <;> norm_num [Rat.mkRat_eq_div]
  · rw [conf_of_strong_early_signal h.symm]
    constructor <;> norm_num [Rat.mkRat_eq_div]
  · rcases conf_of_medium_tabc h.symm with hc | hc <;> rw [hc] <;>
      constructor <;> norm_num [Rat.mkRat_eq_div]
  · rw [conf_of_medium_plan_review h.symm]
    constructor <;> norm_num [Rat.mkRat_eq_div]
  · rw [conf_of_health_plan_review h.symm]
    constructor <;> norm_num [Rat.mkRat_eq_div]

lemma downweight_core_bounds (candidate_data : RawRecord) (signals : Signals) :
    mkRat 2835 10000 ≤ downweight_core candidate_data signals ∧
      downweight_core candidate_data signals ≤ 1 := by
  unfold downweight_core
  split_ifs <;> constructor <;>
    (try norm_num [qmul_eq, Rat.mkRat_eq_div]) <;>
    (try (split_ifs <;> norm_num))

lemma apply_downweight_eq_core (candidate_data : RawRecord) (signals : Signals) :
    apply_downweight_factors candidate_data signals =
      downweight_core candidate_data signals := by
  unfold apply_downweight_factors
  refine max_eq_left ?_
  have h := (downweight_core_bounds candidate_data signals).1
  have : (mkRat 1 10 : ℚ) ≤ mkRat 2835 10000 := by norm_num [Rat.mkRat_eq_div]
  exact this.trans h

lemma foldl_pick_mem : ∀ (l : List ETARuleResult) (acc : Option ETARuleResult)
    (r : ETARuleResult),
    l.foldl
      (fun best x =>
        match best with
        | none => some x
        | some b => if x.confidence_0_1 > b.confidence_0_1 then some x else some b)
      acc = some r →
    acc = some r ∨ r ∈ l := by
  intro l
  induction l with
  | nil => exact fun acc r h => Or.inl h
  | cons x t ih =>
    intro acc r h
    rw [List.foldl_cons] at h
    rcases ih _ r h with h2 | h2
    · cases acc with
      | none =>
        exact Or.inr (by rw [← Option.some.inj h2]; exact List.mem_cons_self x t)
      | some b =>
        have h2' : (if x.confidence_0_1 > b.confidence_0_1 then some x else some b) =
            some r := h2
        by_cases hc : x.confidence_0_1 > b.confidence_0_1
        · rw [if_pos hc] at h2'
          exact Or.inr (by rw [← Option.some.inj h2']; exact List.mem_cons_self x t)
        · rw [if_neg hc] at h2'
          exact Or.inl h2'
    · exact Or.inr (List.mem_cons_of_mem _ h2)

lemma pickMaxByConf_mem {l : List ETARuleResult} {r : ETARuleResult}
    (h : pickMaxByConf l = some r) : r ∈ l := by
  rcases foldl_pick_mem l none r h with h2 | h2
  · exact Option.noConfusion h2
  · exact h2

/-- C10.  Implicit invariant of rule evaluation: the down-weight
multiplier always lies in [0.2835, 1] (so the 0.1 clamp of
`_apply_downweight_factors` never binds), and whenever
`evaluate_candidate` returns a result its confidence lies in [0.5, 0.8]
— the 0.5 floor comes from the final filter and 0.8 is the largest base
confidence of any rule. -/
theorem evaluate_confidence_invariant (parse : Str → Option ℤ) (today : ℤ)
    (candidate_data : RawRecord) (signals : Signals) :
    (mkRat 2835 10000 ≤ downweight_core candidate_data signals ∧
     downweight_core candidate_data signals ≤ 1 ∧
     apply_downweight_factors candidate_data signals =
       downweight_core candidate_data signals) ∧
    (∀ r, evaluate_candidate parse today candidate_data signals = some r →
      (1/2 : ℚ) ≤ r.confidence_0_1 ∧ r.confidence_0_1 ≤ 4/5) := by
  obtain ⟨hcl, hcu⟩ := downweight_core_bounds candidate_data signals
  refine ⟨⟨hcl, hcu, apply_downweight_eq_core candidate_data signals⟩, ?_⟩
  intro r h
  unfold evaluate_candidate at h
  have hr := pickMaxByConf_mem h
  rw [List.mem_filter] at hr
  obtain ⟨hmem, hpred⟩ := hr
  have hge : mkRat 1 2 ≤ r.confidence_0_1 := by
    simpa [ge_iff_le] using of_decide_eq_true hpred
  refine ⟨by rw [show (1/2 : ℚ) = mkRat 1 2 by norm_num [Rat.mkRat_eq_div]]; exact hge, ?_⟩
  rw [List.mem_map] at hmem
  obtain ⟨r0, hr0, hmap⟩ := hmem
  obtain ⟨h0, h45⟩ := rule_results_conf parse today signals r0 hr0
  have hconf : r.confidence_0_1 =
      r0.confidence_0_1 * apply_downweight_factors candidate_data signals := by
    rw [← hmap]
    simp [qmul_eq]
  rw [hconf, apply_downweight_eq_core candidate_data signals]
  have hc0 : 0 ≤ downweight_core candidate_data signals := by
    refine le_trans ?_ hcl
    norm_num
  calc r0.confidence_0_1 * downweight_core candidate_data signals
      ≤ r0.confidence_0_1 * 1 := by
        exact mul_le_mul_of_nonneg_left hcu h0
    _ = r0.confidence_0_1 := mul_one _
    _ ≤ 4/5 := by
        rw [show (4/5 : ℚ) = mkRat 4 5 by norm_num [Rat.mkRat_eq_div]]
        exact h45

/-- Witness for `evaluate_confidence_invariant` at a concrete candidate
whose final-inspection rule fires undampened. -/
theorem evaluate_confidence_invariant_witness :
    evaluate_candidate (fun _ => none) 0
      { venue_name := lc "abc", address := lc "123 somewhere st",
        signals := { permit_types := [lc "final inspection"] } }
      { permit_types := [lc "final inspection"] } =
      some { eta_start := 7, eta_end := 30, eta_days := 18,
             confidence_0_1 := mkRat 4 5,
             rule_name := lc "final_inspection_scheduled",
             signals_used := [lc "final_inspection_or_co"] } ∧
    (1/2 : ℚ) ≤ (mkRat 4 5 : ℚ) ∧ (mkRat 4 5 : ℚ) ≤ 4/5 :=
  ⟨by decide,
   (evaluate_confidence_invariant (fun _ => none) 0
      { venue_name := lc "abc", address := lc "123 somewhere st",
        signals := { permit_types := [lc "final inspection"] } }
      { permit_types := [lc "final inspection"] }).2
     { eta_start := 7, eta_end := 30, eta_days := 18,
       confidence_0_1 := mkRat 4 5,
       rule_name := lc "final_inspection_scheduled",
       signals_used := [lc "final_inspection_or_co"] }
     (by decide)⟩

/-- C8 counterexample.  The suffix stripping of `normalize_business_name`
is a single ordered pass, so an earlier-listed suffix exposed by removing
a later one survives: `"joe llc grill"` normalizes to `"joe llc"`, which
still ends in the listed token `llc`, and re-applying the stripping stage
removes more. -/
theorem normalize_name_not_suffix_free :
    normalize_business_name (lc "joe llc grill") = lc "joe llc" ∧
    lc "llc" ∈ business_suffixes ∧
    endsWithTok (lc "joe llc") (lc "llc") = true ∧
    stripBusinessSuffixes (lc "joe llc") ≠ lc "joe llc" := by decide

lemma pre_trans {α : Type} {l1 l2 l3 : List α} (h1 : l1 <+: l2) (h2 : l2 <+: l3) :
    l1 <+: l3 := by
  obtain ⟨a, ha⟩ := h1
  obtain ⟨b, hb⟩ := h2
  exact ⟨a ++ b, by rw [← hb, ← ha, List.append_assoc]⟩

lemma take_pre {α : Type} (n : ℕ) (l : List α) : l.take n <+: l :=
  ⟨l.drop n, List.take_append_drop n l⟩

lemma dropWhile_suf {α : Type} (p : α → Bool) (l : List α) :
    ∃ t, t ++ l.dropWhile p = l := by
  induction l with
  | nil => exact ⟨[], rfl⟩
  | cons c t ih =>
    by_cases hc : p c
    · obtain ⟨u, hu⟩ := ih
      exact ⟨c :: u, by simp [List.dropWhile_cons, hc, hu]⟩
    · exact ⟨[], by simp [List.dropWhile_cons, hc]⟩

lemma rstrip_pre (xs : Str) : pyRStrip xs <+: xs := by
  unfold pyRStrip
  obtain ⟨t, ht⟩ := dropWhile_suf pyIsSpace xs.reverse
  refine ⟨t.reverse, ?_⟩
  rw [← List.reverse_append, ht, List.reverse_reverse]

lemma pre_head {α : Type} {l1 l2 : List α} (h : l1 <+: l2) (hne : l1 ≠ []) :
    l1.head? = l2.head? := by
  obtain ⟨t, ht⟩ := h
  subst ht
  cases l1 with
  | nil => exact absurd rfl hne
  | cons c u => rfl

lemma noLeadWs_of_pre {l1 l2 : Str} (h : l1 <+: l2) (h2 : noLeadWs l2) :
    noLeadWs l1 := by
  intro c hc
  by_cases hne : l1 = []
  · subst hne; simp at hc
  · rw [pre_head h hne] at hc
    exact h2 c hc

lemma lstrip_id {xs : Str} (h : noLeadWs xs) : pyLStrip xs = xs := by
  cases xs with
  | nil => rfl
  | cons c t => simp [pyLStrip, List.dropWhile_cons, h c rfl]

lemma noLead_lstrip (ys : Str) : noLeadWs (pyLStrip ys) := by
  induction ys with
  | nil => intro c hc; simp [pyLStrip] at hc
  | cons c t ih =>
    by_cases hc : pyIsSpace c
    · simpa [pyLStrip, List.dropWhile_cons, hc] using ih
    · intro d hd
      simp [pyLStrip, List.dropWhile_cons, hc] at hd
      subst hd
      simpa using hc

lemma pyStrip_pre {xs : Str} (h : noLeadWs xs) :
    pyStrip xs <+: xs ∧ noLeadWs (pyStrip xs) := by
  have hr : pyRStrip xs <+: xs := rstrip_pre xs
  have hnr : noLeadWs (pyRStrip xs) := noLeadWs_of_pre hr h
  rw [pyStrip, lstrip_id hnr]
  exact ⟨hr, hnr⟩

lemma noLead_pyStrip (xs : Str) : noLeadWs (pyStrip xs) := by
  rw [pyStrip]
  exact noLead_lstrip _

lemma stripOneSuffix_pre (s : Str) {xs : Str} (h : noLeadWs xs) :
    stripOneSuffix s xs <+: xs ∧ noLeadWs (stripOneSuffix s xs) := by
  simp only [stripOneSuffix]
  have hcore : pyRStrip xs <+: xs := rstrip_pre xs
  split_ifs with h1 h2
  · have htake : (pyRStrip xs).take ((pyRStrip xs).length - (s.length + 1)) <+: xs :=
      pre_trans (take_pre _ _) hcore
    have hnl := noLeadWs_of_pre htake h
    obtain ⟨hp, hn⟩ := pyStrip_pre hnl
    exact ⟨pre_trans hp htake, hn⟩
  · have htake : (pyRStrip xs).take ((pyRStrip xs).length - s.length) <+: xs :=
      pre_trans (take_pre _ _) hcore
    have hnl := noLeadWs_of_pre htake h
    obtain ⟨hp, hn⟩ := pyStrip_pre hnl
    exact ⟨pre_trans hp htake, hn⟩
  · exact pyStrip_pre h

lemma foldl_strip_pre (sufs : List Str) :
    ∀ {nm : Str}, noLeadWs nm →
      (sufs.foldl (fun nm suf => stripOneSuffix suf nm) nm <+: nm ∧
       noLeadWs (sufs.foldl (fun nm suf => stripOneSuffix suf nm) nm)) := by
  induction sufs with
  | nil => exact fun h => ⟨⟨[], List.append_nil _⟩, h⟩
  | cons s t ih =>
    intro nm h
    obtain ⟨h1, h2⟩ := stripOneSuffix_pre s h
    obtain ⟨h3, h4⟩ := ih h2
    exact ⟨pre_trans h3 h1, h4⟩

/-- C8 amended.  The suffix-stripping stage of `normalize_business_name`
makes one pass over the fixed list in source order, removing for each
suffix at most one trailing occurrence; its output need not be
suffix-free, but the stage only ever removes characters from the tail: on
the stripped, lower-cased name it actually receives, its output is a
prefix of its input (and hence so is any repeated application). -/
theorem suffix_strip_single_pass (name : Str) :
    stripBusinessSuffixes (pyStrip (pyLower name)) <+: pyStrip (pyLower name) ∧
    stripBusinessSuffixes (stripBusinessSuffixes (pyStrip (pyLower name))) <+:
      pyStrip (pyLower name) := by
  have h0 := noLead_pyStrip (pyLower name)
  obtain ⟨h1, h2⟩ := foldl_strip_pre business_suffixes h0
  obtain ⟨h3, _⟩ := foldl_strip_pre business_suffixes h2
  exact ⟨h1, pre_trans h3 h1⟩

/-- C7 counterexample.  Equal normalized renderings do not imply a
deterministic match: `"123 main st"` and `"123 main street"` parse to the
same `normalized` address, yet with unrelated venue names and no
phone/email the classifier returns false — rule 1 compares the raw
lower-cased, stripped address text, not the normalized rendering. -/
theorem match_not_by_normalized_rendering :
    (parse_address (lc "123 main st")).normalized =
      (parse_address (lc "123 main street")).normalized ∧
    (parse_address (lc "123 main st")).normalized = some (lc "123 Main Street") ∧
    is_deterministic_match
      { candidate_id := 1, venue_name := lc "alpha", address := lc "123 main st" }
      { candidate_id := 2, venue_name := lc "beta", address := lc "123 main street" } =
      false := by decide

/-- C7 amended.  Rule 1 of `_is_deterministic_match` fires exactly on raw
case-insensitive address equality: any two records whose non-empty
addresses agree after lower-casing and stripping match, independently of
name, phone, or email; and the scenario pair ("Joe's Pizza" /
"Joe's Pizza LLC" at "123 Main St, Houston, TX 77001") is classified a
match — via the rule-4 similarity thresholds, not rule 1. -/
theorem match_rule1_raw_equality :
    (∀ r1 r2 : RawRecord,
      pyStrip (pyLower r1.address) ≠ [] →
      pyStrip (pyLower r1.address) = pyStrip (pyLower r2.address) →
      is_deterministic_match r1 r2 = true) ∧
    is_deterministic_match
      { candidate_id := 1, venue_name := lc "Joe\x27s Pizza",
        address := lc "123 Main St, Houston, TX 77001" }
      { candidate_id := 2, venue_name := lc "Joe\x27s Pizza LLC",
        address := lc "123 main street, houston, tx 77001" } = true := by
  constructor
  · intro r1 r2 hne heq
    simp only [is_deterministic_match]
    rw [if_pos ⟨hne, heq ▸ hne, heq⟩]
  · decide

/-- Witness for `match_rule1_raw_equality` at a concrete rule-1 pair. -/
theorem match_rule1_raw_equality_witness :
    (pyStrip (pyLower (lc "5 Elm St")) ≠ [] ∧
     pyStrip (pyLower (lc "5 Elm St")) = pyStrip (pyLower (lc "5 elm st "))) ∧
    is_deterministic_match
      { candidate_id := 1, venue_name := lc "a", address := lc "5 Elm St" }
      { candidate_id := 2, venue_name := lc "b", address := lc "5 elm st " } = true :=
  ⟨⟨by decide, by decide⟩,
   match_rule1_raw_equality.1
     { candidate_id := 1, venue_name := lc "a", address := lc "5 Elm St" }
     { candidate_id := 2, venue_name := lc "b", address := lc "5 elm st " }
     (by decide) (by decide)⟩

/-- C6 counterexample.  A later member's truthy `source_flags` value
overwrites the base's: merging a base with `tabc = "pending"` and a second
record with `tabc = "active"` yields `tabc = "active"`, not the base's
value. -/
theorem merge_base_flag_overwritten :
    dictGet? ((merge_group_records
        [{ candidate_id := 1, source_flags := [(lc "tabc", lc "pending")] },
         { candidate_id := 2, source_flags := [(lc "tabc", lc "active")] }]).record.source_flags)
      (lc "tabc") = some (lc "active") ∧
    lc "active" ≠ lc "pending" := by decide

lemma dictGet_cons (p : Str × Str) (t : List (Str × Str)) (k' : Str) :
    dictGet? (p :: t) k' = if p.1 = k' then some p.2 else dictGet? t k' := by
  by_cases h : p.1 = k' <;> simp [dictGet?, List.find?_cons, h]

lemma dictGet_upsert (m : List (Str × Str)) (k v k' : Str) :
    dictGet? (dictUpsert m k v) k' = if k' = k then some v else dictGet? m k' := by
  induction m with
  | nil =>
    show dictGet? [(k, v)] k' = if k' = k then some v else dictGet? [] k'
    rw [dictGet_cons]
    by_cases h : k' = k
    · rw [if_pos h.symm, if_pos h]
    · rw [if_neg (Ne.symm h), if_neg h]
  | cons hd t ih =>
    obtain ⟨k0, v0⟩ := hd
    simp only [dictUpsert]
    by_cases hh : k0 = k
    · rw [if_pos hh, dictGet_cons, dictGet_cons]
      by_cases h : k' = k
      · subst h
        rw [if_pos hh, if_pos rfl]
      · have hne : ¬ k0 = k' := fun hc => h (hc.symm.trans hh)
        rw [if_neg hne, if_neg h]
        exact (if_neg hne).symm
    · rw [if_neg hh, dictGet_cons, dictGet_cons]
      by_cases h : k0 = k'
      · have hne : ¬ k' = k := fun hk => hh (h.trans hk)
        rw [if_pos h, if_neg hne, if_pos h]
      · rw [if_neg h, ih]
        by_cases h2 : k' = k <;> simp [h2, h]

lemma itemsFold_get (k : Str) : ∀ (items m : List (Str × Str)),
    dictGet? (items.foldl
      (fun m kv => if kv.2 ≠ [] then dictUpsert m kv.1 kv.2 else m) m) k =
      items.foldl
        (fun acc kv => if kv.1 = k ∧ kv.2 ≠ [] then some kv.2 else acc)
        (dictGet? m k) := by
  intro items
  induction items with
  | nil => intro m; rfl
  | cons kv t ih =>
    intro m
    rw [List.foldl_cons, List.foldl_cons, ih]
    congr 1
    by_cases hv : kv.2 ≠ []
    · rw [if_pos hv, dictGet_upsert]
      by_cases hk : k = kv.1
      · rw [if_pos hk, if_pos ⟨hk.symm, hv⟩]
      · rw [if_neg hk, if_neg (fun hc => hk hc.1.symm)]
    · rw [if_neg hv, if_neg (fun hc => hv hc.2)]

lemma recordsFold_get (k : Str) : ∀ (records : List RawRecord) (m : List (Str × Str)),
    dictGet? (records.foldl
      (fun m r => r.source_flags.foldl
        (fun m kv => if kv.2 ≠ [] then dictUpsert m kv.1 kv.2 else m) m) m) k =
      records.foldl
        (fun acc r => r.source_flags.foldl
          (fun acc kv => if kv.1 = k ∧ kv.2 ≠ [] then some kv.2 else acc) acc)
        (dictGet? m k) := by
  intro records
  induction records with
  | nil => intro m; rfl
  | cons r t ih =>
    intro m
    rw [List.foldl_cons, List.foldl_cons, ih, itemsFold_get]

lemma no_key_fold (k : Str) : ∀ (items : List (Str × Str)) (acc : Option Str),
    (∀ kv ∈ items, kv.1 ≠ k) →
    items.foldl (fun acc kv => if kv.1 = k ∧ kv.2 ≠ [] then some kv.2 else acc) acc =
      acc := by
  intro items
  induction items with
  | nil => intro acc _; rfl
  | cons kv t ih =>
    intro acc hno
    rw [List.foldl_cons, if_neg (fun hc => hno kv (List.mem_cons_self kv t) hc.1)]
    exact ih acc (fun x hx => hno x (List.mem_cons_of_mem _ hx))

lemma items_step2_eq (k : Str) : ∀ (items : List (Str × Str)),
    (items.map Prod.fst).Nodup → ∀ (acc : Option Str),
    items.foldl (fun acc kv => if kv.1 = k ∧ kv.2 ≠ [] then some kv.2 else acc) acc =
      (match dictGet? items k with
       | some v => if v ≠ [] then some v else acc
       | none => acc) := by
  intro items
  induction items with
  | nil => intro _ acc; rfl
  | cons kv t ih =>
    intro hnd acc
    rw [List.map_cons, List.nodup_cons] at hnd
    obtain ⟨hni, hndt⟩ := hnd
    rw [List.foldl_cons, dictGet_cons]
    by_cases hk : kv.1 = k
    · have hnone : ∀ x ∈ t, x.1 ≠ k := by
        intro x hx hc
        exact hni (List.mem_map.mpr ⟨x, hx, hc.trans hk.symm⟩)
      rw [if_pos hk]
      by_cases hv : kv.2 ≠ []
      · rw [if_pos ⟨hk, hv⟩, no_key_fold k t _ hnone]
        simp [hv]
      · have hv2 : kv.2 = [] := not_ne_iff.mp hv
        rw [if_neg (fun hc => hv hc.2), no_key_fold k t _ hnone]
        simp [hv2]
    · rw [if_neg hk, if_neg (fun hc => hk hc.1)]
      exact ih hndt acc

lemma records_fold_congr (k : Str) : ∀ (records : List RawRecord) (acc : Option Str),
    (∀ r ∈ records, (r.source_flags.map Prod.fst).Nodup) →
    records.foldl
      (fun acc r => r.source_flags.foldl
        (fun acc kv => if kv.1 = k ∧ kv.2 ≠ [] then some kv.2 else acc) acc) acc =
      records.foldl
        (fun acc r =>
          match dictGet? r.source_flags k with
          | some v => if v ≠ [] then some v else acc
          | none => acc) acc := by
  intro records
  induction records with
  | nil => intro acc _; rfl
  | cons r t ih =>
    intro acc hnd
    rw [List.foldl_cons, List.foldl_cons,
      items_step2_eq k r.source_flags (hnd r (List.mem_cons_self r t)) acc]
    exact ih _ (fun x hx => hnd x (List.mem_cons_of_mem _ hx))

lemma mergeFold_preserves_flags : ∀ (others : List RawRecord) (m : RawRecord),
    (others.foldl merge_field_step m).source_flags = m.source_flags := by
  intro others
  induction others with
  | nil => intro m; rfl
  | cons r t ih =>
    intro m
    rw [List.foldl_cons, ih]
    simp only [merge_field_step]
    split_ifs <;> rfl

/-- C6 amended.  In `_merge_group_records` the flag union gives priority
to the LAST record with a truthy value, not the base: for every non-empty
group (with well-formed per-record flag dicts) and every key, the merged
`source_flags` value is the last truthy value in group order — keys only
on later members are added, and a base value survives exactly when no
later member holds a truthy value for that key. -/
theorem merge_flags_last_truthy (records : List RawRecord)
    (hne : records ≠ [])
    (hnd : ∀ r ∈ records, ((r.source_flags.map Prod.fst).Nodup)) (k : Str) :
    dictGet? (merge_group_records records).record.source_flags k =
      lastTruthyFlag records k := by
  cases records with
  | nil => exact absurd rfl hne
  | cons base others =>
    have hflags : (merge_group_records (base :: others)).record.source_flags =
        (base :: others).foldl
          (fun m r => r.source_flags.foldl
            (fun m kv => if kv.2 ≠ [] then dictUpsert m kv.1 kv.2 else m) m) [] := by
      simp only [merge_group_records]
      rw [mergeFold_preserves_flags]
    rw [hflags, recordsFold_get, lastTruthyFlag]
    exact records_fold_congr k (base :: others) _ hnd

/-- Witness for `merge_flags_last_truthy` at a concrete two-record group. -/
theorem merge_flags_last_truthy_witness :
    dictGet? ((merge_group_records
        [{ candidate_id := 1, source_flags := [(lc "tabc", lc "pending")] },
         { candidate_id := 2, source_flags := [(lc "hc_permit", lc "issued")] }]).record.source_flags)
      (lc "tabc") =
      lastTruthyFlag
        [{ candidate_id := 1, source_flags := [(lc "tabc", lc "pending")] },
         { candidate_id := 2, source_flags := [(lc "hc_permit", lc "issued")] }]
        (lc "tabc") :=
  merge_flags_last_truthy
    [{ candidate_id := 1, source_flags := [(lc "tabc", lc "pending")] },
     { candidate_id := 2, source_flags := [(lc "hc_permit", lc "issued")] }]
    (by decide) (by decide) (lc "tabc")

lemma groupSeeded_flatten_perm {ρ : Type} (matchFn : ρ → ρ → Bool) :
    ∀ (fuel : ℕ) (l : List ρ), l.length ≤ fuel →
      (apply_deterministic_rules_go matchFn fuel l).flatten ~ l := by
  intro fuel
  induction fuel with
  | zero =>
    intro l hl
    rw [List.length_eq_zero.mp (Nat.le_zero.mp hl)]
    simp [apply_deterministic_rules_go]
  | succ f ih =>
    intro l hl
    cases l with
    | nil => simp [apply_deterministic_rules_go]
    | cons c rest =>
      simp only [apply_deterministic_rules_go, List.flatten_cons]
      have hlen : (rest.filter (fun o => !matchFn c o)).length ≤ f := by
        have h1 := List.length_filter_le (fun o => !matchFn c o) rest
        have h2 : rest.length ≤ f := by simpa using hl
        omega
      have hrec := ih _ hlen
      calc (c :: rest.filter (fun o => matchFn c o)) ++
            (apply_deterministic_rules_go matchFn f
              (rest.filter (fun o => !matchFn c o))).flatten
          ~ (c :: rest.filter (fun o => matchFn c o)) ++
              rest.filter (fun o => !matchFn c o) := hrec.append_left _
        _ = c :: (rest.filter (fun o => matchFn c o) ++
              rest.filter (fun o => !matchFn c o)) := by rw [List.cons_append]
        _ ~ c :: rest := (List.filter_append_perm _ rest).cons c

lemma getD_set_ne {α : Type} (l : List α) {i j : ℕ} (h : i ≠ j) (x d : α) :
    (l.set i x).getD j d = l.getD j d := by
  rw [List.getD_eq_getElem?_getD, List.getD_eq_getElem?_getD, List.getElem?_set_ne h]

lemma getD_set_self {α : Type} (l : List α) {i : ℕ} (hi : i < l.length) (x d : α) :
    (l.set i x).getD i d = x := by
  rw [List.getD_eq_getElem?_getD, List.getElem?_set_self hi]
  rfl

lemma extract_at {ρ : Type} : ∀ (gs : List (List ρ)) (j : ℕ), j < gs.length →
    gs.getD j [] ++ (gs.set j []).flatten ~ gs.flatten := by
  intro gs
  induction gs with
  | nil =>
    intro j hj
    simp at hj
  | cons g t ih =>
    intro j hj
    cases j with
    | zero => simp
    | succ j' =>
      have hj' : j' < t.length := by simpa using hj
      simp only [List.getD_cons_succ, List.set_cons_succ, List.flatten_cons]
      calc t.getD j' [] ++ (g ++ (t.set j' []).flatten)
          = (t.getD j' [] ++ g) ++ (t.set j' []).flatten := by
            rw [List.append_assoc]
        _ ~ (g ++ t.getD j' []) ++ (t.set j' []).flatten :=
            List.perm_append_comm.append_right _
        _ = g ++ (t.getD j' [] ++ (t.set j' []).flatten) := List.append_assoc _ _ _
        _ ~ g ++ t.flatten := (ih j' hj').append_left g

lemma merge_step_perm {ρ : Type} (gs : List (List ρ)) (i j : ℕ)
    (hi : i < gs.length) (hj : j < gs.length) (hij : i ≠ j) :
    ((gs.set i (gs.getD i [] ++ gs.getD j [])).set j []).flatten ~ gs.flatten := by
  have hlen1 : i < ((gs.set i (gs.getD i [] ++ gs.getD j [])).set j []).length := by
    rw [List.length_set, List.length_set]; exact hi
  have h3 := extract_at ((gs.set i (gs.getD i [] ++ gs.getD j [])).set j []) i
    hlen1
  have hgi : ((gs.set i (gs.getD i [] ++ gs.getD j [])).set j []).getD i [] =
      gs.getD i [] ++ gs.getD j [] := by
    rw [getD_set_ne _ (fun hc => hij hc.symm), getD_set_self _ hi]
  have hset : (((gs.set i (gs.getD i [] ++ gs.getD j [])).set j []).set i []) =
      ((gs.set i []).set j []) := by
    rw [List.set_comm _ _ _ (fun hc => hij hc.symm), List.set_set]
  rw [hgi, hset] at h3
  have h1 := extract_at gs i hi
  have h2 := extract_at (gs.set i []) j (by rw [List.length_set]; exact hj)
  rw [getD_set_ne _ hij] at h2
  calc ((gs.set i (gs.getD i [] ++ gs.getD j [])).set j []).flatten
      ~ (gs.getD i [] ++ gs.getD j []) ++ ((gs.set i []).set j []).flatten := h3.symm
    _ = gs.getD i [] ++ (gs.getD j [] ++ ((gs.set i []).set j []).flatten) :=
        List.append_assoc _ _ _
    _ ~ gs.getD i [] ++ (gs.set i []).flatten := h2.append_left _
    _ ~ gs.flatten := h1

lemma llm_fold_flatten_perm {ρ : Type} (oracle : ρ → ρ → Bool) :
    ∀ (pairs : List (ℕ × ℕ × ρ × ρ)) (gs : List (List ρ)),
      (∀ p ∈ pairs, p.1 < gs.length ∧ p.2.1 < gs.length ∧ p.1 ≠ p.2.1) →
      (pairs.foldl
        (fun gs p =>
          if oracle p.2.2.1 p.2.2.2 then
            (gs.set p.1 (gs.getD p.1 [] ++ gs.getD p.2.1 [])).set p.2.1 []
          else gs)
        gs).flatten ~ gs.flatten := by
  intro pairs
  induction pairs with
  | nil => intro gs _; rfl
  | cons p t ih =>
    intro gs hv
    rw [List.foldl_cons]
    obtain ⟨hi, hj, hij⟩ := hv p (List.mem_cons_self p t)
    by_cases ho : oracle p.2.2.1 p.2.2.2
    · rw [if_pos ho]
      have hlen : ((gs.set p.1 (gs.getD p.1 [] ++ gs.getD p.2.1 [])).set p.2.1 []).length =
          gs.length := by rw [List.length_set, List.length_set]
      have hrec := ih ((gs.set p.1 (gs.getD p.1 [] ++ gs.getD p.2.1 [])).set p.2.1 [])
        (fun q hq => by rw [hlen]; exact hv q (List.mem_cons_of_mem _ hq))
      exact hrec.trans (merge_step_perm gs p.1 p.2.1 hi hj hij)
    · rw [if_neg ho]
      exact ih gs (fun q hq => hv q (List.mem_cons_of_mem _ hq))

lemma find_ambiguous_pairs_valid {ρ : Type} (ambFn : ρ → ρ → Bool)
    (groups : List (List ρ)) :
    ∀ p ∈ find_ambiguous_pairs ambFn groups,
      p.1 < groups.length ∧ p.2.1 < groups.length ∧ p.1 ≠ p.2.1 := by
  intro p hp
  simp only [find_ambiguous_pairs, List.mem_flatMap, List.mem_filterMap,
    List.mem_range, Option.map_eq_some'] at hp
  obtain ⟨i, hi, j, hj, q, _, hpq⟩ := hp
  rw [List.mem_range'] at hj
  obtain ⟨d, hd, hjd⟩ := hj
  subst hpq
  refine ⟨hi, ?_, ?_⟩ <;> simp <;> omega

lemma apply_llm_flatten_perm {ρ : Type} (ambFn oracle : ρ → ρ → Bool)
    (groups : List (List ρ)) :
    (apply_llm_matching ambFn oracle groups).flatten ~ groups.flatten := by
  rw [apply_llm_matching, List.flatten_filter_not_isEmpty]
  exact llm_fold_flatten_perm oracle _ groups (find_ambiguous_pairs_valid ambFn groups)

lemma merge_resolved_cons_nil (t : List (List RawRecord)) :
    merge_resolved_groups ([] :: t) = merge_resolved_groups t := rfl

lemma merge_resolved_cons_single (r : RawRecord) (t : List (List RawRecord)) :
    merge_resolved_groups ([r] :: t) =
      ⟨r, none, none⟩ :: merge_resolved_groups t := rfl

lemma merge_resolved_cons_multi (r r2 : RawRecord) (g : List RawRecord)
    (t : List (List RawRecord)) :
    merge_resolved_groups ((r :: r2 :: g) :: t) =
      merge_group_records (r :: r2 :: g) :: merge_resolved_groups t := rfl

lemma entityWeight_merge (base : RawRecord) (others : List RawRecord) :
    entityWeight (merge_group_records (base :: others)) = (base :: others).length := rfl

lemma entitySourceIds_merge (base : RawRecord) (others : List RawRecord) :
    entitySourceIds (merge_group_records (base :: others)) =
      (base :: others).map (fun r => r.candidate_id) := rfl

lemma merge_resolved_weights : ∀ (groups : List (List RawRecord)),
    ((merge_resolved_groups groups).map entityWeight).sum = (groups.map List.length).sum := by
  intro groups
  induction groups with
  | nil => rfl
  | cons g t ih =>
    cases g with
    | nil =>
      rw [merge_resolved_cons_nil]
      simpa using ih
    | cons r g' =>
      cases g' with
      | nil =>
        rw [merge_resolved_cons_single]
        simp [entityWeight, ih]
      | cons r2 g'' =>
        rw [merge_resolved_cons_multi]
        simp [entityWeight_merge, ih]

lemma merge_resolved_ids : ∀ (groups : List (List RawRecord)),
    (merge_resolved_groups groups).map entitySourceIds =
      (groups.filter (fun g => !g.isEmpty)).map
        (fun g => g.map (fun r => r.candidate_id)) := by
  intro groups
  induction groups with
  | nil => rfl
  | cons g t ih =>
    cases g with
    | nil =>
      rw [merge_resolved_cons_nil]
      simpa [List.filter_cons] using ih
    | cons r g' =>
      cases g' with
      | nil =>
        rw [merge_resolved_cons_single]
        simp [List.filter_cons, entitySourceIds, ih]
      | cons r2 g'' =>
        rw [merge_resolved_cons_multi]
        simp [List.filter_cons, entitySourceIds_merge, ih]

/-- C1.  Entity resolution partitions its input, for every oracle: the
sum of `merged_from` (1 for singleton pass-throughs) over the output of
`resolve_entities` equals the number of input records, and — when the
input candidate ids are distinct — the source-record id sets of distinct
output entities are pairwise disjoint. -/
theorem resolve_entities_partition (oracle : RawRecord → RawRecord → Bool)
    (candidates : List RawRecord) :
    ((resolve_entities oracle candidates).map entityWeight).sum = candidates.length ∧
    ((candidates.map (fun r => r.candidate_id)).Nodup →
      List.Pairwise
        (fun e1 e2 => List.Disjoint (entitySourceIds e1) (entitySourceIds e2))
        (resolve_entities oracle candidates)) := by
  have hperm :
      (apply_llm_matching is_ambiguous_pair oracle
        (apply_deterministic_rules is_deterministic_match candidates)).flatten ~
        candidates := by
    refine (apply_llm_flatten_perm _ _ _).trans ?_
    exact groupSeeded_flatten_perm is_deterministic_match candidates.length candidates
      (le_refl _)
  constructor
  · rw [resolve_entities, merge_resolved_weights, ← List.length_flatten]
    exact hperm.length_eq
  · intro hnd
    have hmap := hperm.map (fun r => r.candidate_id)
    have hnodup : ((apply_llm_matching is_ambiguous_pair oracle
        (apply_deterministic_rules is_deterministic_match candidates)).flatten.map
          (fun r => r.candidate_id)).Nodup := hmap.nodup_iff.mpr hnd
    have hids := merge_resolved_ids
      (apply_llm_matching is_ambiguous_pair oracle
        (apply_deterministic_rules is_deterministic_match candidates))
    have hflat :
        (((apply_llm_matching is_ambiguous_pair oracle
            (apply_deterministic_rules is_deterministic_match candidates)).filter
              (fun g => !g.isEmpty)).map
          (fun g => g.map (fun r => r.candidate_id))).flatten.Nodup := by
      rw [← List.map_flatten, List.flatten_filter_not_isEmpty]
      exact hnodup
    have hpw := (List.nodup_flatten.mp hflat).2
    rw [← hids] at hpw
    rw [List.pairwise_map] at hpw
    exact hpw

/-- Witness for `resolve_entities_partition` on a concrete batch with an
always-merge oracle. -/
theorem resolve_entities_partition_witness :
    ([(1 : ℕ), 2].Nodup) ∧
    List.Pairwise
      (fun e1 e2 => List.Disjoint (entitySourceIds e1) (entitySourceIds e2))
      (resolve_entities (fun _ _ => true)
        [{ candidate_id := 1, venue_name := lc "x", address := lc "1 a st" },
         { candidate_id := 2, venue_name := lc "y", address := lc "2 b st" }]) :=
  ⟨by decide,
   (resolve_entities_partition (fun _ _ => true)
      [{ candidate_id := 1, venue_name := lc "x", address := lc "1 a st" },
       { candidate_id := 2, venue_name := lc "y", address := lc "2 b st" }]).2
     (by decide)⟩

/-- C5 counterexample.  Response ids are interpreted by Python list
indexing: a reply whose only item carries `candidate_id = -1` modifies
candidate index 1 of a two-candidate batch, even though id 1 is absent
from the response. -/
theorem batch_negative_id_counterexample :
    (-1 : ℤ) ≠ 1 ∧
    (estimate_batch_candidates (fun _ => none) 0
        (fun _ => Except.ok [{ candidate_id := some (-1), eta_days := some 10 }])
        [batch_cand, batch_cand]).getD 1 none ≠
      (batch_rule_results (fun _ => none) 0 [batch_cand, batch_cand]).getD 1 none := by
  decide

lemma alistUpsert_mem {α β : Type} [DecidableEq α] :
    ∀ (m : List (α × β)) (k : α) (v : β) (q : α × β),
      q ∈ alistUpsert m k v → q.1 = k ∨ q ∈ m := by
  intro m
  induction m with
  | nil =>
    intro k v q hq
    simp only [alistUpsert, List.mem_singleton] at hq
    exact Or.inl (by rw [hq])
  | cons hd t ih =>
    intro k v q hq
    obtain ⟨k0, v0⟩ := hd
    simp only [alistUpsert] at hq
    by_cases hk : k0 = k
    · rw [if_pos hk] at hq
      rcases List.mem_cons.mp hq with h | h
      · exact Or.inl (by rw [h, hk])
      · exact Or.inr (List.mem_cons_of_mem _ h)
    · rw [if_neg hk] at hq
      rcases List.mem_cons.mp hq with h | h
      · exact Or.inr (by rw [h]; exact List.mem_cons_self _ _)
      · rcases ih k v q h with h2 | h2
        · exact Or.inl h2
        · exact Or.inr (List.mem_cons_of_mem _ h2)

lemma apply_batch_go_ids (orig : List (Option ETARuleResult)) :
    ∀ (items : List LLMAdjustOutput) (acc d : List (ℤ × ETARuleResult)),
      apply_batch_go orig items acc = Except.ok d →
      ∀ q ∈ d, (∃ item ∈ items, item.candidate_id = some q.1) ∨ q ∈ acc := by
  intro items
  induction items with
  | nil =>
    intro acc d h q hq
    simp only [apply_batch_go] at h
    cases h
    exact Or.inr hq
  | cons item rest ih =>
    intro acc d h q hq
    simp only [apply_batch_go] at h
    cases hcid : item.candidate_id with
    | none =>
      simp only [hcid] at h
      rcases ih acc d h q hq with ⟨it, hit, hcid'⟩ | hacc
      · exact Or.inl ⟨it, List.mem_cons_of_mem _ hit, hcid'⟩
      · exact Or.inr hacc
    | some cid =>
      simp only [hcid] at h
      cases hidx : python_list_idx orig.length cid with
      | none =>
        simp only [hidx] at h
        exact Except.noConfusion h
      | some idx =>
        simp only [hidx] at h
        cases horig : orig.getD idx none with
        | none =>
          simp only [horig] at h
          rcases ih _ d h q hq with ⟨it, hit, hcid'⟩ | hacc
          · exact Or.inl ⟨it, List.mem_cons_of_mem _ hit, hcid'⟩
          · exact Or.inr hacc
        | some original =>
          simp only [horig] at h
          rcases ih _ d h q hq with ⟨it, hit, hcid'⟩ | hacc
          · exact Or.inl ⟨it, List.mem_cons_of_mem _ hit, hcid'⟩
          · rcases alistUpsert_mem acc cid _ q hacc with hkey | hmem
            · exact Or.inl ⟨item, List.mem_cons_self _ _, by rw [hcid, hkey]⟩
            · exact Or.inr hmem

lemma fold_set_untouched (i : ℕ) :
    ∀ (d : List (ℤ × ETARuleResult)) (fr : List (Option ETARuleResult)),
      (∀ q ∈ d, python_list_idx fr.length q.1 ≠ some i) →
      (d.foldl
        (fun final_results p =>
          match python_list_idx final_results.length p.1 with
          | some idx => final_results.set idx (some p.2)
          | none => final_results)
        fr).getD i none = fr.getD i none := by
  intro d
  induction d with
  | nil => intro fr _; rfl
  | cons q t ih =>
    intro fr hno
    rw [List.foldl_cons]
    cases hidx : python_list_idx fr.length q.1 with
    | none =>
      simp only [hidx]
      exact ih fr (fun p hp => hno p (List.mem_cons_of_mem _ hp))
    | some idx =>
      simp only [hidx]
      have hlen : (fr.set idx (some q.2)).length = fr.length := List.length_set fr idx _
      rw [ih (fr.set idx (some q.2))
        (fun p hp => by rw [hlen]; exact hno p (List.mem_cons_of_mem _ hp))]
      have hne : idx ≠ i := fun hc =>
        hno q (List.mem_cons_self q t) (by rw [hidx, hc])
      exact getD_set_ne fr hne _ _

/-- C5 amended.  Batch ETA adjustment never raises and falls back to the
rule results: on any oracle failure (exception or malformed reply, and
likewise when an out-of-range id aborts the item loop) every candidate
keeps its original rule result; response ids are interpreted by Python
list indexing (a negative id `-k` addresses candidate `N-k`), and any
candidate that no response id resolves to keeps its original rule result
unmodified. -/
theorem batch_adjustment_scope (parse : Str → Option ℤ) (today : ℤ)
    (oracle : List (ℕ × ETARuleResult × Str) → Except Unit (List LLMAdjustOutput))
    (candidates : List RawRecord) :
    (∀ e, oracle (batch_llm_inputs parse today candidates) = Except.error e →
      estimate_batch_candidates parse today oracle candidates =
        batch_rule_results parse today candidates) ∧
    (∀ items, oracle (batch_llm_inputs parse today candidates) = Except.ok items →
      ∀ i,
        (∀ item ∈ items, ∀ cid, item.candidate_id = some cid →
          python_list_idx candidates.length cid ≠ some i) →
        (estimate_batch_candidates parse today oracle candidates).getD i none =
          (batch_rule_results parse today candidates).getD i none) := by
  have hlen : (batch_rule_results parse today candidates).length = candidates.length :=
    List.length_map _ _
  constructor
  · intro e he
    simp only [estimate_batch_candidates]
    split_ifs with hinp
    · simp only [apply_batch_llm_adjustment, he]
      rfl
    · rfl
  · intro items hok i hno
    simp only [estimate_batch_candidates]
    split_ifs with hinp
    · simp only [apply_batch_llm_adjustment, hok]
      cases hgo : apply_batch_go (batch_rule_results parse today candidates) items [] with
      | error e => rfl
      | ok d =>
        refine fold_set_untouched i d (batch_rule_results parse today candidates) ?_
        intro q hq
        rcases apply_batch_go_ids _ items [] d hgo q hq with ⟨item, hitem, hcid⟩ | habs
        · rw [hlen]
          exact hno item hitem q.1 hcid
        · simp at habs
    · rfl

/-- Witness for `batch_adjustment_scope`: a failing oracle leaves the
batch at its rule results. -/
theorem batch_adjustment_scope_witness :
    estimate_batch_candidates (fun _ => none) 0 (fun _ => Except.error ()) [batch_cand] =
      batch_rule_results (fun _ => none) 0 [batch_cand] :=
  (batch_adjustment_scope (fun _ => none) 0 (fun _ => Except.error ()) [batch_cand]).1
    () rfl
